import Mathlib

/-!
# Verification of the nanite-webgpu LOD construction and drawing pipeline

This file gives a shallow embedding, in Lean 4, of the parts of the
`nanite-webgpu` repository relevant to the claims under examination:

* `createNaniteMeshlets` and its helpers (meshPreprocessing), including the
  `MeshletWIP` data model, the per-level group/merge/simplify/propagate loop,
  the stall handling and the `SimplificationError`;
* the boundary-edge / adjacency utilities (`edgesUtils.ts` is not part of the
  provided sources, so those definitions are modelled from the specification,
  as marked in their doc comments);
* the WGSL `isPassingOcclusionCulling` function (early-exit structure, with the
  depth-pyramid tail abstracted as an oracle);
* the drawn-meshlets buffer sizing (`createDrawnMeshletsBuffer`) and the
  hardware/software entry store/load helpers of `scene/types.ts`.

External collaborators (meshoptimizer clustering/simplification, METIS graph
partitioning, bounds computation) are modelled as oracle fields of an `Env`
structure: the embedding is parametric in their behaviour, exactly as the
TypeScript code is parametric in the WASM modules it calls.

JavaScript `number` values that the pipeline manipulates are modelled as
exact rationals extended with the two infinities (`ExtQ`): the only infinite
values that ever arise in this code path are `Infinity` (the `parentError` of
a root) and `-Infinity` (JS `Math.max()` of an empty list); `NaN` never arises
in the modelled computations.
-/

namespace NaniteWebgpu

/-! ## JS numbers: rationals extended with the infinities -/

/-- A JS `number` as used by the LOD builder: an exact rational, `Infinity`
(`parentError` of a root) or `-Infinity` (JS `Math.max()` of no arguments). -/
inductive ExtQ where
  | negInf
  | fin (q : ℚ)
  | inf
deriving DecidableEq, Repr

/-- Binary `Math.max` on extended rationals. -/
def ExtQ.maxE : ExtQ → ExtQ → ExtQ
  | .negInf, b => b
  | a, .negInf => a
  | .inf, _ => .inf
  | _, .inf => .inf
  | .fin a, .fin b => .fin (max a b)

/-- Add a finite rational to an extended rational (`q + e`). -/
def ExtQ.addQ (q : ℚ) : ExtQ → ExtQ
  | .negInf => .negInf
  | .inf => .inf
  | .fin a => .fin (q + a)

/-- Boolean `≤` on extended rationals. -/
def ExtQ.ble : ExtQ → ExtQ → Bool
  | .negInf, _ => true
  | _, .inf => true
  | .inf, _ => false
  | .fin _, .negInf => false
  | .fin a, .fin b => decide (a ≤ b)

/-- JS `Math.max(...xs)`: fold of binary max over the spread list, starting
from `-Infinity` (the result of `Math.max()`). -/
def jsMathMax (l : List ExtQ) : ExtQ := l.foldl ExtQ.maxE .negInf

/-! ## Edge utilities

`edgesUtils.ts` is imported by `createNaniteMeshlets.ts` but is not among the
provided sources; the definitions in this subsection are therefore modelled
from the specification (spec §3 "BoundaryEdge", §4.2 "AdjacencyGraph"). -/

/-- An undirected edge between two vertex indices, stored with the smaller
index first. -/
abbrev Edge := ℕ × ℕ

/-- Normalize an undirected edge so the smaller endpoint comes first. -/
def normEdge (a b : ℕ) : Edge := if a ≤ b then (a, b) else (b, a)

/-- Modelled from the spec: `listAllEdges` of `edgesUtils.ts` (not under the
provided sources). Every triangle (three consecutive indices) contributes its
three undirected edges. -/
def listAllEdges : List ℕ → List Edge
  | a :: b :: c :: rest => normEdge a b :: normEdge b c :: normEdge a c :: listAllEdges rest
  | _ => []

/-- Modelled from the spec: `findBoundaryEdges` of `edgesUtils.ts` (not under
the provided sources). Spec §3: a boundary edge is an undirected vertex-index
pair referenced by exactly one triangle within the cluster. -/
def findBoundaryEdges (edges : List Edge) : List Edge :=
  edges.filter (fun e => edges.count e == 1)

/-- Modelled from the spec: `findAdjacentMeshlets_Iter` of `edgesUtils.ts`
(not under the provided sources). Pairwise edge comparison: the weight between
clusters `i ≠ j` is the number of boundary edges of cluster `i` that also
occur among the boundary edges of cluster `j`. Result: the `n × n` weight
matrix as nested lists. -/
def findAdjacentMeshlets_Iter (boundaryEdges : List (List Edge)) : List (List ℕ) :=
  (List.range boundaryEdges.length).map (fun i =>
    (List.range boundaryEdges.length).map (fun j =>
      if i == j then 0
      else ((boundaryEdges.getD i []).filter
        (fun e => (boundaryEdges.getD j []).contains e)).length))

/-- One step of building the edge → owning-clusters map: record that cluster
`i` references edge `e`, appending to the entry of `e` (or creating it). -/
def insertOwner (e : Edge) (i : ℕ) : List (Edge × List ℕ) → List (Edge × List ℕ)
  | [] => [(e, [i])]
  | p :: rest => if p.1 == e then (p.1, p.2 ++ [i]) :: rest else p :: insertOwner e i rest

/-- Fold all clusters (cluster `k`-th of the remaining list has index
`firstIdx + k`) into the edge → owners map. -/
def buildEdgeMapAux (firstIdx : ℕ) (acc : List (Edge × List ℕ)) :
    List (List Edge) → List (Edge × List ℕ)
  | [] => acc
  | es :: rest =>
    buildEdgeMapAux (firstIdx + 1) (es.foldl (fun m e => insertOwner e firstIdx m) acc) rest

/-- Modelled from the spec: `findAdjacentMeshlets_Map` of `edgesUtils.ts`
(not under the provided sources). Hashed edge lookup: first build a map from
each edge to the list of clusters referencing it, then the weight between
clusters `i ≠ j` is the number of map entries owned by both. -/
def findAdjacentMeshlets_Map (boundaryEdges : List (List Edge)) : List (List ℕ) :=
  let m := buildEdgeMapAux 0 [] boundaryEdges
  (List.range boundaryEdges.length).map (fun i =>
    (List.range boundaryEdges.length).map (fun j =>
      if i == j then 0
      else (m.filter (fun p => p.2.contains i && p.2.contains j)).length))

/-- `createNaniteMeshlets.ts` line 21: the strategy is selected once from
`CONFIG.nanite.preprocess.useMapToFindAdjacentEdges`. -/
def findAdjacentMeshlets (useMapToFindAdjacentEdges : Bool)
    (boundaryEdges : List (List Edge)) : List (List ℕ) :=
  if useMapToFindAdjacentEdges then findAdjacentMeshlets_Map boundaryEdges
  else findAdjacentMeshlets_Iter boundaryEdges

/-- Observer used by the adjacency proofs: the owner list the edge map
associates to `e` (`[]` when `e` has no entry). -/
def lookupOwners (m : List (Edge × List ℕ)) (e : Edge) : List ℕ :=
  ((m.find? (fun p => p.1 == e)).map (fun p => p.2)).getD []

/-! ## Data model of the construction-time tree (`createNaniteMeshlets.ts`) -/

/-- `BoundingSphere` of `calcBounds.ts` (center + radius). Only ever produced
by the bounds oracle and carried around, never inspected by the builder. -/
structure BoundingSphere where
  cx : ℚ
  cy : ℚ
  cz : ℚ
  radius : ℚ
deriving DecidableEq, Repr

/-- `MeshletWIP`: meshlet while constructing the tree. `createdFrom` holds the
ids of the children meshlets (object references in TypeScript; ids are unique
within one construction, so an id faithfully stands for the object). -/
structure MeshletWIP where
  id : ℕ
  createdFrom : List ℕ
  /-- 0 for leaf, N for root -/
  lodLevel : ℕ
  indices : List ℕ
  boundaryEdges : List Edge
  /-- Calculated during creation; never touched afterwards. -/
  maxSiblingsError : ExtQ
  /-- Calculated during creation. -/
  sharedSiblingsBounds : BoundingSphere
  /-- Assigned when a coarser meshlet uses this one as a base; `Infinity` for
  a root. -/
  parentError : ExtQ
  /-- Assigned together with `parentError`; `undefined` for a root. -/
  parentBounds : Option BoundingSphere
deriving DecidableEq, Repr

/-- `createNaniteMeshlets.ts` line 74: a WIP meshlet is a root of the LOD DAG
iff its `parentBounds` is `undefined`. -/
def isWIP_Root (m : MeshletWIP) : Prop := m.parentBounds = none

instance (m : MeshletWIP) : Decidable (isWIP_Root m) := by
  unfold isWIP_Root; infer_instance

/-- `constants.ts`: `VERTS_IN_TRIANGLE = 3`. -/
def VERTS_IN_TRIANGLE : ℕ := 3

/-- `utils/index.ts` `getTriangleCount`: `indices.length / 3`. -/
def getTriangleCount (indices : List ℕ) : ℕ := indices.length / VERTS_IN_TRIANGLE

/-- `createNaniteMeshlets.ts` line 29. -/
def MAX_LODS : ℕ := 20

/-- `CONFIG.nanite.preprocess.simplificationDecimateFactor` (constants.ts). -/
def DECIMATE_FACTOR : ℕ := 2

/-- `CONFIG.nanite.preprocess.simplificationFactorRequirement = 0.97`. -/
def SIMPLIFICATION_FACTOR_REQ : ℚ := 97 / 100

/-- `createNaniteMeshlets.ts` line 35 (`TARGET_SIMPLIFY_ERROR = 0.05`); only
ever forwarded to the simplifier oracle. -/
def TARGET_SIMPLIFY_ERROR : ℚ := 5 / 100

/-- `GROUP_SIZE = 4` (`createNaniteMeshlets.ts` line 104). -/
def GROUP_SIZE : ℕ := 4

/-- Modelled from the spec: `calculateTargetIndexCount` of `simplifyMesh.ts`
(not under the provided sources); spec §4.3: target index count is the merged
size divided by the decimate factor (half the merged size). Only ever
forwarded to the simplifier oracle. -/
def calculateTargetIndexCount (indexCount : ℕ) (decimateFactor : ℕ) : ℕ :=
  indexCount / decimateFactor

/-- Result of the external `simplifyMesh` (meshoptimizer). -/
structure SimplifiedMesh where
  indexBuffer : List ℕ
  error : ℚ
  errorScale : ℚ
deriving DecidableEq, Repr

/-- The error thrown at `createNaniteMeshlets.ts` line 195: the constructor of
`SimplificationError` (line 321) receives the LOD level and the vertex count,
and interpolates exactly these two numbers into its message. -/
structure SimplificationErrorData where
  lodLevel : ℕ
  vertexCount : ℕ
deriving DecidableEq, Repr

/-- The external collaborators of `createNaniteMeshlets`, as oracles.
`split` is `createMeshlets` followed by `splitIndicesPerMeshlets` (the
per-meshlet index buffers); `simplify` is `simplifyMesh` applied to the
parsed mesh, taking the mega-meshlet index buffer and the target index count
(`targetError` and `lockBorders` are fixed at every call site and absorbed
into the oracle); `partition` is `partitionGraph` on an adjacency matrix;
`calcBounds` is `calculateBounds(parsedMesh.positions, ·).sphere`. The
parsed mesh's vertex positions are fixed for a whole run and absorbed into
the oracles; `vertexCount` is `parsedMesh.vertexCount` and `meshIndices` the
input index buffer. -/
structure Env where
  vertexCount : ℕ
  meshIndices : List ℕ
  split : List ℕ → List (List ℕ)
  simplify : List ℕ → ℕ → SimplifiedMesh
  partition : List (List ℕ) → ℕ → List (List ℕ)
  calcBounds : List ℕ → BoundingSphere

/-- Mutable state of one `createNaniteMeshlets` call: the `allMeshlets`
accumulator, the `NEXT_MESHLET_ID` counter and the `console.warn` log of
stalled groups (pairs `(trianglesBefore, trianglesAfter)`). -/
structure BuildState where
  allMeshlets : List MeshletWIP
  nextMeshletId : ℕ
  warnings : List (ℕ × ℕ)
deriving DecidableEq, Repr

/-- Look a meshlet up by id (the model of following a TS object reference). -/
def findMeshlet (store : List MeshletWIP) (i : ℕ) : Option MeshletWIP :=
  store.find? (fun m => m.id == i)

/-- `createMeshletWip` (`createNaniteMeshlets.ts` line 248): build the record,
assign `NEXT_MESHLET_ID` as id, increment the counter, push onto
`allMeshlets`. (`reportProgress` only invokes the user progress callback and
is effect-free on the construction state; it is omitted.) Returns the new
state and the id of the created meshlet. -/
def createMeshletWip (lodLevel : ℕ) (indices : List ℕ) (simplificationError : ExtQ)
    (createdFrom : List ℕ) (sharedSiblingsBounds : BoundingSphere) (s : BuildState) :
    BuildState × ℕ :=
  let boundaryEdges := findBoundaryEdges (listAllEdges indices)
  let m : MeshletWIP :=
    { id := s.nextMeshletId
      indices := indices
      boundaryEdges := boundaryEdges
      maxSiblingsError := simplificationError
      parentError := ExtQ.inf
      sharedSiblingsBounds := sharedSiblingsBounds
      parentBounds := none
      lodLevel := lodLevel
      createdFrom := createdFrom }
  ({ allMeshlets := s.allMeshlets ++ [m]
     nextMeshletId := s.nextMeshletId + 1
     warnings := s.warnings }, s.nextMeshletId)

/-- Sequentially create one `MeshletWIP` per split index buffer (the order of
id assignment matches the TS code: the `async` bodies run synchronously up to
their first `await`, which is after the push). -/
def splitIntoMeshletsAux (lodLevel : ℕ) (simplificationError : ExtQ) (createdFrom : List ℕ)
    (sharedSiblingsBounds : BoundingSphere) : List (List ℕ) → BuildState → BuildState × List ℕ
  | [], s => (s, [])
  | idxs :: rest, s =>
    let c := createMeshletWip lodLevel idxs simplificationError createdFrom sharedSiblingsBounds s
    let r := splitIntoMeshletsAux lodLevel simplificationError createdFrom sharedSiblingsBounds rest c.1
    (r.1, c.2 :: r.2)

/-- `splitIntoMeshlets` (`createNaniteMeshlets.ts` line 219): let the external
clusterer split `indices` into per-meshlet index buffers, then create a
`MeshletWIP` for each. -/
def splitIntoMeshlets (env : Env) (lodLevel : ℕ) (indices : List ℕ)
    (simplificationError : ExtQ) (createdFrom : List ℕ)
    (sharedSiblingsBounds : BoundingSphere) (s : BuildState) : BuildState × List ℕ :=
  splitIntoMeshletsAux lodLevel simplificationError createdFrom sharedSiblingsBounds
    (env.split indices) s

/-- `mergeMeshlets` (`createNaniteMeshlets.ts` line 280): concatenate the
index buffers of the group, in order. -/
def mergeMeshlets (meshletGroup : List MeshletWIP) : List ℕ :=
  meshletGroup.flatMap (fun m => m.indices)

/-- The `childMeshletGroup.forEach` at `createNaniteMeshlets.ts` line 185:
assign `parentError` and `parentBounds` to every meshlet of the group
(addressed by id, the model of the TS object references); `maxSiblingsError`
is deliberately never touched (the commented-out line 188). -/
def setParentOfGroup (group : List ℕ) (parentError : ExtQ)
    (parentBounds : Option BoundingSphere) (store : List MeshletWIP) : List MeshletWIP :=
  store.map (fun m =>
    if group.contains m.id then
      { m with parentError := parentError, parentBounds := parentBounds }
    else m)

/-- Everything recorded about the processing of one merge group (body of the
`for (const childMeshletGroup of partitioned)` loop, lines 127–191):
`statePre`/`state` are the build states just before and just after the group,
`newIds` the meshlets created from the group (empty iff the group stalled or
the clusterer returned nothing). -/
structure GroupLog where
  groupIds : List ℕ
  trianglesBefore : ℕ
  trianglesAfter : ℕ
  stalled : Bool
  newIds : List ℕ
  statePre : BuildState
  state : BuildState
deriving DecidableEq, Repr

/-- Process one merge group (`createNaniteMeshlets.ts` lines 127–191):
merge, simplify via the oracle, apply the stall check
(`simplificationFactor > SIMPLIFICATION_FACTOR_REQ` ⇒ warn and `continue`),
otherwise compute the propagated error and bounds, create the new meshlets
(a single root when this level has exactly one group) and assign
parent data to every child of the group. -/
def processGroup (env : Env) (lodLevel : ℕ) (singleGroup : Bool)
    (s : BuildState) (group : List ℕ) : BuildState × GroupLog :=
  let gms := group.filterMap (findMeshlet s.allMeshlets)
  let megaMeshlet := mergeMeshlets gms
  let targetIndexCount := calculateTargetIndexCount megaMeshlet.length DECIMATE_FACTOR
  let simplifiedMesh := env.simplify megaMeshlet targetIndexCount
  let trianglesBefore := getTriangleCount megaMeshlet
  let trianglesAfter := getTriangleCount simplifiedMesh.indexBuffer
  let simplificationFactor : ℚ := (trianglesAfter : ℚ) / (trianglesBefore : ℚ)
  if SIMPLIFICATION_FACTOR_REQ < simplificationFactor then
    let s1 : BuildState := { s with warnings := s.warnings ++ [(trianglesBefore, trianglesAfter)] }
    (s1, { groupIds := group, trianglesBefore := trianglesBefore,
           trianglesAfter := trianglesAfter, stalled := true, newIds := [],
           statePre := s, state := s1 })
  else
    let errorNow := simplifiedMesh.error * simplifiedMesh.errorScale
    let childrenError := jsMathMax (gms.map (fun m => m.maxSiblingsError))
    let totalError := ExtQ.addQ errorNow childrenError
    let bounds := env.calcBounds megaMeshlet
    let created :=
      if singleGroup then
        let c := createMeshletWip lodLevel simplifiedMesh.indexBuffer totalError group bounds s
        (c.1, [c.2])
      else
        splitIntoMeshlets env lodLevel simplifiedMesh.indexBuffer totalError group bounds s
    let s2 : BuildState :=
      { created.1 with
        allMeshlets := setParentOfGroup group totalError (some bounds) created.1.allMeshlets }
    (s2, { groupIds := group, trianglesBefore := trianglesBefore,
           trianglesAfter := trianglesAfter, stalled := false, newIds := created.2,
           statePre := s, state := s2 })

/-- Process the groups of one level in order, logging each. -/
def processGroups (env : Env) (lodLevel : ℕ) (singleGroup : Bool) :
    List (List ℕ) → BuildState → BuildState × List GroupLog
  | [], s => (s, [])
  | g :: rest, s =>
    let r := processGroup env lodLevel singleGroup s g
    let rr := processGroups env lodLevel singleGroup rest r.1
    (rr.1, r.2 :: rr.2)

/-- Everything recorded about one iteration of the LOD-level loop. -/
structure LevelLog where
  lodLevel : ℕ
  current : List ℕ
  partitioned : List (List ℕ)
  groupLogs : List GroupLog
deriving DecidableEq, Repr

/-- The `for (; lodLevel < MAX_LODS + 1; lodLevel++)` loop of
`createNaniteMeshlets` (lines 95–199): `fuel` is the number of remaining
iterations (`MAX_LODS + 1 - lodLevel`). Each iteration: break when fewer than
two meshlets remain; partition into groups of ≤ 4 (via adjacency + the
partitioner oracle when more than `GROUP_SIZE` meshlets, else one group);
process every group; throw `SimplificationError` when level 1 created no
meshlets; recurse on the newly created meshlets. -/
def runLevels (useMap : Bool) (env : Env) :
    ℕ → ℕ → List ℕ → BuildState →
    List LevelLog × Except SimplificationErrorData BuildState
  | 0, _, _, s => ([], .ok s)
  | fuel + 1, lodLevel, current, s =>
    if current.length < 2 then ([], .ok s)
    else
      let nparts := (current.length + GROUP_SIZE - 1) / GROUP_SIZE
      let partitioned : List (List ℕ) :=
        if GROUP_SIZE < current.length then
          let boundaryEdgesLists := current.map (fun i =>
            ((findMeshlet s.allMeshlets i).map (fun m => m.boundaryEdges)).getD [])
          let adjacency := findAdjacentMeshlets useMap boundaryEdgesLists
          (env.partition adjacency nparts).map (fun idxs =>
            idxs.filterMap (fun i => current[i]?))
        else [current]
      let pg := processGroups env lodLevel (partitioned.length == 1) partitioned s
      let newIds := pg.2.flatMap (fun g => g.newIds)
      let lv : LevelLog := { lodLevel := lodLevel, current := current,
                             partitioned := partitioned, groupLogs := pg.2 }
      if lodLevel == 1 && newIds.isEmpty then
        ([lv], .error { lodLevel := lodLevel - 1, vertexCount := env.vertexCount })
      else
        let r := runLevels useMap env fuel (lodLevel + 1) newIds pg.1
        (lv :: r.1, r.2)

deriving instance DecidableEq for Except

/-- The full result of one `createNaniteMeshlets` call, with the recorded
history (`bottomState`/`bottomIds` after the level-0 split, one `LevelLog`
per executed loop iteration, and the returned state or thrown error). -/
structure RunResult where
  bottomState : BuildState
  bottomIds : List ℕ
  levels : List LevelLog
  result : Except SimplificationErrorData BuildState
deriving DecidableEq, Repr

/-- `createNaniteMeshlets` (lines 76–214). `initialNextMeshletId` is the value
the module-level `NEXT_MESHLET_ID` global happens to hold when the call
starts; line 81 resets it to 0, so it is discarded. `useMap` is
`CONFIG.nanite.preprocess.useMapToFindAdjacentEdges`. -/
def runNanite (useMap : Bool) (env : Env) (initialNextMeshletId : ℕ) : RunResult :=
  let _ := initialNextMeshletId
  let s0 : BuildState := { allMeshlets := [], nextMeshletId := 0, warnings := [] }
  let mockBounds := env.calcBounds env.meshIndices
  let b := splitIntoMeshlets env 0 env.meshIndices (ExtQ.fin 0) [] mockBounds s0
  let lv := runLevels useMap env MAX_LODS 1 b.2 b.1
  { bottomState := b.1, bottomIds := b.2, levels := lv.1, result := lv.2 }

/-- All intermediate build states of a run, at group granularity: the state
after the bottom-level split, then the state after each processed group. The
final state (returned or held when the error is thrown) is the last entry. -/
def RunResult.snapshots (r : RunResult) : List BuildState :=
  r.bottomState :: (r.levels.flatMap (fun lv => lv.groupLogs)).map (fun g => g.state)

/-- The meshlet record `createMeshletWip` builds when the counter holds `i`
(closed form used by the characterization lemmas). -/
def mkWip (lodLevel : ℕ) (indices : List ℕ) (simplificationError : ExtQ)
    (createdFrom : List ℕ) (sharedSiblingsBounds : BoundingSphere) (i : ℕ) : MeshletWIP :=
  { id := i
    indices := indices
    boundaryEdges := findBoundaryEdges (listAllEdges indices)
    maxSiblingsError := simplificationError
    parentError := ExtQ.inf
    sharedSiblingsBounds := sharedSiblingsBounds
    parentBounds := none
    lodLevel := lodLevel
    createdFrom := createdFrom }

/-- The meshlets `splitIntoMeshletsAux` appends, with ids starting at `i`
(closed form used by the characterization lemmas). -/
def wipsFrom (lodLevel : ℕ) (simplificationError : ExtQ) (createdFrom : List ℕ)
    (sharedSiblingsBounds : BoundingSphere) : ℕ → List (List ℕ) → List MeshletWIP
  | _, [] => []
  | i, idxs :: rest =>
    mkWip lodLevel idxs simplificationError createdFrom sharedSiblingsBounds i ::
      wipsFrom lodLevel simplificationError createdFrom sharedSiblingsBounds (i + 1) rest

/-- The state after the last group of a log list (`dflt` when no group was
processed): the state a `runLevels` call finishes in. -/
def lastGroupState (logs : List LevelLog) (dflt : BuildState) : BuildState :=
  ((logs.flatMap (fun lv => lv.groupLogs)).map (fun g => g.state)).getLastD dflt

/-- Id bookkeeping invariant of a build state: the stored meshlets carry ids
`0, 1, …, n−1` in creation order and the `NEXT_MESHLET_ID` counter holds `n`. -/
def StoreIds (s : BuildState) : Prop :=
  s.allMeshlets.map (fun m => m.id) = List.range s.allMeshlets.length ∧
  s.nextMeshletId = s.allMeshlets.length

/-- Per-node invariant of claim C1 (plus the auxiliary finiteness fact that
makes it inductive): a node is a root iff its `parentError` is `Infinity`;
once a parent exists, `parentError ≥ maxSiblingsError`; `maxSiblingsError`
is never `Infinity`. -/
def NodeErrInv (m : MeshletWIP) : Prop :=
  (m.parentBounds = none ↔ m.parentError = ExtQ.inf) ∧
  (m.parentBounds ≠ none → ExtQ.ble m.maxSiblingsError m.parentError = true) ∧
  m.maxSiblingsError ≠ ExtQ.inf

/-- Contract of the external simplifier: the reported error and error scale
multiply to a nonnegative number (meshoptimizer reports nonnegative floats). -/
def SimplifyNonneg (env : Env) : Prop :=
  ∀ mega targetIndexCount, 0 ≤ (env.simplify mega targetIndexCount).error *
    (env.simplify mega targetIndexCount).errorScale

/-- Contract of the external graph partitioner: the returned parts never
repeat an element (each meshlet is put in exactly one part). -/
def PartitionValid (env : Env) : Prop :=
  ∀ adjacency nparts, ((env.partition adjacency nparts).flatten).Nodup

/-- Contract of the external clusterer: splitting an index buffer always
yields at least one meshlet. -/
def SplitNonempty (env : Env) : Prop :=
  ∀ idxs, env.split idxs ≠ []

/-! The following `group…` definitions name the intermediate values of the
`processGroup` body (they are definitionally the `let`s of `processGroup`),
so that the characterization lemmas and the claims can speak about them. -/

/-- The meshlet records of a group, resolved from their ids in a state. -/
def groupMeshlets (s : BuildState) (g : List ℕ) : List MeshletWIP :=
  g.filterMap (findMeshlet s.allMeshlets)

/-- The merged "mega meshlet" index buffer of a group. -/
def groupMega (s : BuildState) (g : List ℕ) : List ℕ :=
  mergeMeshlets (groupMeshlets s g)

/-- The simplifier's answer for a group. -/
def groupSimplified (env : Env) (s : BuildState) (g : List ℕ) : SimplifiedMesh :=
  env.simplify (groupMega s g) (calculateTargetIndexCount (groupMega s g).length DECIMATE_FACTOR)

/-- Triangle count of the merged group before simplification. -/
def groupTrianglesBefore (s : BuildState) (g : List ℕ) : ℕ :=
  getTriangleCount (groupMega s g)

/-- Triangle count of the simplified group. -/
def groupTrianglesAfter (env : Env) (s : BuildState) (g : List ℕ) : ℕ :=
  getTriangleCount (groupSimplified env s g).indexBuffer

/-- The stall condition: the simplification factor (triangles after /
triangles before) exceeds `SIMPLIFICATION_FACTOR_REQ`. -/
def groupStalls (env : Env) (s : BuildState) (g : List ℕ) : Prop :=
  SIMPLIFICATION_FACTOR_REQ <
    ((groupTrianglesAfter env s g : ℚ) / (groupTrianglesBefore s g : ℚ))

instance (env : Env) (s : BuildState) (g : List ℕ) : Decidable (groupStalls env s g) := by
  unfold groupStalls; infer_instance

/-- The propagated error of a surviving group:
`simplifyError · errorScale + max(child.maxSiblingsError)`. -/
def groupTotalError (env : Env) (s : BuildState) (g : List ℕ) : ExtQ :=
  ExtQ.addQ ((groupSimplified env s g).error * (groupSimplified env s g).errorScale)
    (jsMathMax ((groupMeshlets s g).map (fun m => m.maxSiblingsError)))

/-- The shared bounds of a surviving group: the bounding sphere of the merged
(pre-simplification) geometry. -/
def groupBounds (env : Env) (s : BuildState) (g : List ℕ) : BoundingSphere :=
  env.calcBounds (groupMega s g)

/-- The creations a surviving group performs (a single root meshlet when the
level has exactly one group, else a split), with the resulting ids. -/
def groupCreated (env : Env) (lodLevel : ℕ) (singleGroup : Bool) (s : BuildState)
    (g : List ℕ) : BuildState × List ℕ :=
  if singleGroup then
    let c := createMeshletWip lodLevel (groupSimplified env s g).indexBuffer
      (groupTotalError env s g) g (groupBounds env s g) s
    (c.1, [c.2])
  else
    splitIntoMeshlets env lodLevel (groupSimplified env s g).indexBuffer
      (groupTotalError env s g) g (groupBounds env s g) s

/-- The state a surviving group leaves behind: creations followed by the
parent-data assignment to every child of the group. -/
def groupSurviveState (env : Env) (lodLevel : ℕ) (singleGroup : Bool) (s : BuildState)
    (g : List ℕ) : BuildState :=
  { (groupCreated env lodLevel singleGroup s g).1 with
    allMeshlets := setParentOfGroup g (groupTotalError env s g)
      (some (groupBounds env s g)) (groupCreated env lodLevel singleGroup s g).1.allMeshlets }

/-- The record a surviving group's parent assignment turns a child into:
`parentError` and `parentBounds` are set, every other field is untouched. -/
def assignedWip (env : Env) (s : BuildState) (g : List ℕ) (m : MeshletWIP) : MeshletWIP :=
  { m with parentError := groupTotalError env s g
           parentBounds := some (groupBounds env s g) }

/-- The build state a `runLevels` call finishes in: the returned state on
normal return, the state at the moment of the throw otherwise. -/
def runLevelsFinal (r : List LevelLog × Except SimplificationErrorData BuildState)
    (dflt : BuildState) : BuildState :=
  match r.2 with
  | .ok st => st
  | .error _ => lastGroupState r.1 dflt

/-- The group decomposition a level works on (definitionally the
`partitioned` of the `runLevels` body): one group when at most `GROUP_SIZE`
meshlets remain, else the parts the partitioner returns on the adjacency of
the current meshlets' boundary edges, resolved to meshlet ids. -/
def levelPartitioned (useMap : Bool) (env : Env) (s : BuildState) (current : List ℕ) :
    List (List ℕ) :=
  if GROUP_SIZE < current.length then
    (env.partition
        (findAdjacentMeshlets useMap (current.map (fun i =>
          ((findMeshlet s.allMeshlets i).map (fun m => m.boundaryEdges)).getD [])))
        ((current.length + GROUP_SIZE - 1) / GROUP_SIZE)).map
      (fun idxs => idxs.filterMap (fun i => current[i]?))
  else [current]

/-- The last build state of a run (the returned `allMeshlets` holder on normal
return; the state at the moment of the throw otherwise). -/
def RunResult.finalState (r : RunResult) : BuildState :=
  r.snapshots.getLast (by simp [RunResult.snapshots])

/-! ## Occlusion culling (`isPassingOcclusionCulling`, WGSL)

The shader works on `f32`; the embedding is exact arithmetic over ℚ. Lines
43–74 of the shader (screen-space AABB, mip selection, depth-pyramid sample
and the final depth comparison) read the depth-pyramid texture and are
abstracted as the oracle `depthPyramidTest`, a function of the view-space
center and radius: the claims under study only concern the early-accept
structure before any texture read. -/

/-- A WGSL `vec4f` over exact rationals. -/
structure Vec4 where
  x : ℚ
  y : ℚ
  z : ℚ
  w : ℚ
deriving DecidableEq, Repr

/-- A WGSL column-major `mat4x4f`: four columns. -/
structure Mat4 where
  c0 : Vec4
  c1 : Vec4
  c2 : Vec4
  c3 : Vec4
deriving DecidableEq, Repr

/-- `m * v` for a column-major 4×4 matrix. -/
def mulMatVec (m : Mat4) (v : Vec4) : Vec4 :=
  { x := m.c0.x * v.x + m.c1.x * v.y + m.c2.x * v.z + m.c3.x * v.w
    y := m.c0.y * v.x + m.c1.y * v.y + m.c2.y * v.z + m.c3.y * v.w
    z := m.c0.z * v.x + m.c1.z * v.y + m.c2.z * v.z + m.c3.z * v.w
    w := m.c0.w * v.x + m.c1.w * v.y + m.c2.w * v.z + m.c3.w * v.w }

/-- `CAMERA_CFG.near = 0.01` (constants.ts), interpolated into the shader at
line 39. -/
def CAMERA_CFG_near : ℚ := 1 / 100

/-- The WGSL `isPassingOcclusionCulling` (naniteVisibilityPass occlusion
snippet, lines 18–75): return `true` when occlusion culling is disabled;
project the meshlet bounding-sphere center to view space; return `true` when
the sphere is close to the near plane (`abs(center.z) < r + near`); otherwise
run the depth-pyramid comparison (abstracted as `depthPyramidTest`). -/
def isPassingOcclusionCulling (useOcclusionCulling : Bool) (viewMat modelMat : Mat4)
    (ownBoundingSphere : Vec4) (depthPyramidTest : Vec4 → ℚ → Bool) : Bool :=
  if !useOcclusionCulling then true
  else
    let center := mulMatVec viewMat (mulMatVec modelMat
      { x := ownBoundingSphere.x, y := ownBoundingSphere.y, z := ownBoundingSphere.z, w := 1 })
    let r := ownBoundingSphere.w
    if |center.z| < r + CAMERA_CFG_near then true
    else depthPyramidTest center r

/-! ## Drawn-meshlets buffer (`scene/types.ts`) -/

/-- `BYTES_U32` (constants.ts). -/
def BYTES_U32 : ℕ := 4

/-- `BYTES_UVEC2 = BYTES_U32 * 2` (constants.ts): one `vec2u(transformId,
meshletId)` entry. -/
def BYTES_UVEC2 : ℕ := BYTES_U32 * 2

/-- `BYTES_DRAWN_MESHLETS_PARAMS` (types.ts line 67): the hardware
indirect-draw header. `webgpuMinimalBufferSize` is `WEBGPU_MINIMAL_BUFFER_SIZE`
of `utils/webgpu.ts` (not under the provided sources); the definitions are
parametric in it. -/
def BYTES_DRAWN_MESHLETS_PARAMS (webgpuMinimalBufferSize : ℕ) : ℕ :=
  max webgpuMinimalBufferSize (4 * BYTES_U32)

/-- `BYTES_DRAWN_MESHLETS_SW_PARAMS` (types.ts line 90): the software
indirect-dispatch header. -/
def BYTES_DRAWN_MESHLETS_SW_PARAMS (webgpuMinimalBufferSize : ℕ) : ℕ :=
  max webgpuMinimalBufferSize (4 * BYTES_U32)

/-- Modelled from the spec: `BOTTOM_LEVEL_NODE` of `naniteObject.ts` (not
under the provided sources); spec §3: LOD level 0 is the leaf level. -/
def BOTTOM_LEVEL_NODE : ℕ := 0

/-- The size computation of `createDrawnMeshletsBuffer` (types.ts lines
135–156): two fixed headers plus one `vec2u` slot per (bottom-level meshlet,
instance) pair. The GPU buffer is created once with exactly this size. -/
def createDrawnMeshletsBufferSize (webgpuMinimalBufferSize : ℕ)
    (allWIPMeshlets : List MeshletWIP) (instanceCount : ℕ) : ℕ :=
  let bottomMeshletCount :=
    (allWIPMeshlets.filter (fun m => m.lodLevel == BOTTOM_LEVEL_NODE)).length
  let listSize := bottomMeshletCount * instanceCount * BYTES_UVEC2
  BYTES_DRAWN_MESHLETS_PARAMS webgpuMinimalBufferSize +
    BYTES_DRAWN_MESHLETS_SW_PARAMS webgpuMinimalBufferSize + listSize

/-! ## Drawn-meshlets entry list (WGSL store/load helpers, types.ts 95–116)

WGSL `u32` arithmetic is modelled exactly: subtraction wraps modulo `2^32`. -/

/-- `2^32`, the modulus of WGSL `u32` arithmetic. -/
def U32LIM : ℕ := 4294967296

/-- WGSL `u32` subtraction (wrapping). Arguments are reduced mod `2^32`. -/
def u32sub (a b : ℕ) : ℕ := (a % U32LIM + (U32LIM - b % U32LIM)) % U32LIM

/-- The entry list `_drawnMeshletsList`: slot index → `(tfxIdx, meshletIdx)`. -/
def DrawnList := ℕ → ℕ × ℕ

/-- Slot written by `_storeMeshletHardwareDraw idx`: the front of the list. -/
def hardwareSlot (idx : ℕ) : ℕ := idx

/-- Slot written by `_storeMeshletSoftwareDraw idx`: `len - 1u - idx`, the
back of the list, in `u32` arithmetic. -/
def softwareSlot (len idx : ℕ) : ℕ := u32sub (u32sub len 1) idx

/-- `_storeMeshletHardwareDraw` (types.ts line 97). -/
def storeMeshletHardwareDraw (lst : DrawnList) (idx tfxIdx meshletIdx : ℕ) : DrawnList :=
  Function.update lst (hardwareSlot idx) (tfxIdx, meshletIdx)

/-- `_storeMeshletSoftwareDraw` (types.ts line 100). -/
def storeMeshletSoftwareDraw (len : ℕ) (lst : DrawnList) (idx tfxIdx meshletIdx : ℕ) :
    DrawnList :=
  Function.update lst (softwareSlot len idx) (tfxIdx, meshletIdx)

/-- `_getMeshletHardwareDraw` (types.ts line 108). -/
def getMeshletHardwareDraw (lst : DrawnList) (idx : ℕ) : ℕ × ℕ :=
  lst (hardwareSlot idx)

/-- `_getMeshletSoftwareDraw` (types.ts line 111). -/
def getMeshletSoftwareDraw (len : ℕ) (lst : DrawnList) (idx : ℕ) : ℕ × ℕ :=
  lst (softwareSlot len idx)

/-! ## Concrete test environments

Small fixture environments used to witness the theorems below and to exhibit
counterexamples. All simplifier errors are 0 so the concrete runs can be
evaluated by `simp`/`norm_num`. -/

/-- Split an index buffer into consecutive triangles (a simple concrete
clusterer used by the fixture environments). -/
def chunk3 : List ℕ → List (List ℕ)
  | a :: b :: c :: rest => [a, b, c] :: chunk3 rest
  | _ => []

/-- A degenerate bounding sphere, the fixture bounds oracle's answer. -/
def sphere0 : BoundingSphere := ⟨0, 0, 0, 0⟩

/-- Fixture: a 5-triangle mesh whose 5 bottom meshlets are partitioned into
the groups `{0,1,2}` and `{3,4}` at level 1; the first group simplifies
3 → 1 triangles and survives, the second does not simplify at all and
stalls. The run returns normally with three roots. -/
def envC2 : Env where
  vertexCount := 100
  meshIndices := List.range 15
  split := fun idxs => if idxs.length == 15 then chunk3 idxs else [idxs]
  simplify := fun mega _ => if mega.length == 9 then ⟨[0, 1, 2], 0, 0⟩ else ⟨mega, 0, 0⟩
  partition := fun _ _ => [[0, 1, 2], [3, 4]]
  calcBounds := fun _ => sphere0

/-- Fixture: a mesh of `indexCount / 3` triangles whose simplifier never
removes anything, so the single level-1 group stalls and the construction
throws. -/
def envErr (indexCount : ℕ) : Env where
  vertexCount := 100
  meshIndices := List.range indexCount
  split := fun idxs => chunk3 idxs
  simplify := fun mega _ => ⟨mega, 0, 0⟩
  partition := fun _ _ => [[0, 1]]
  calcBounds := fun _ => sphere0

/-- The identity `mat4x4f`. -/
def idMat4 : Mat4 := ⟨⟨1, 0, 0, 0⟩, ⟨0, 1, 0, 0⟩, ⟨0, 0, 1, 0⟩, ⟨0, 0, 0, 1⟩⟩

/-! # Theorems -/

/-! ## C7: the near-plane early accept of the occlusion test -/

/-- **C7.** For every camera state (view matrix), model matrix, meshlet
bounding sphere and depth-pyramid contents (the oracle `depthPyramidTest`
abstracts the whole screen-space AABB / mip selection / depth comparison tail
of the shader, which is the only part that reads the depth pyramid), if the
view-space center of the bounding sphere satisfies
`|center.z| < radius + near` then `isPassingOcclusionCulling` with occlusion
culling enabled returns `true`: a sphere straddling the near plane is never
rejected by the occlusion test, regardless of the depth pyramid. -/
theorem c7_nearPlane_alwaysVisible (viewMat modelMat : Mat4) (ownBoundingSphere : Vec4)
    (depthPyramidTest : Vec4 → ℚ → Bool)
    (hnear : |(mulMatVec viewMat (mulMatVec modelMat
        { x := ownBoundingSphere.x, y := ownBoundingSphere.y,
          z := ownBoundingSphere.z, w := 1 })).z| <
      ownBoundingSphere.w + CAMERA_CFG_near) :
    isPassingOcclusionCulling true viewMat modelMat ownBoundingSphere depthPyramidTest
      = true := by
  unfold isPassingOcclusionCulling
  simp only [Bool.not_true, Bool.false_eq_true, if_false, if_pos hnear]

/-- Witness for C7: the unit sphere at the origin with identity matrices
straddles the near plane (`|0| < 1 + 0.01`) and passes the occlusion test
even against a depth pyramid that always reports "occluded". -/
theorem c7_nearPlane_alwaysVisible_witness :
    |(mulMatVec idMat4 (mulMatVec idMat4
        { x := (Vec4.mk 0 0 0 1).x, y := (Vec4.mk 0 0 0 1).y,
          z := (Vec4.mk 0 0 0 1).z, w := 1 })).z| <
      (Vec4.mk 0 0 0 1).w + CAMERA_CFG_near ∧
    isPassingOcclusionCulling true idMat4 idMat4 (Vec4.mk 0 0 0 1)
      (fun _ _ => false) = true := by
  constructor
  · norm_num [mulMatVec, idMat4, CAMERA_CFG_near]
  · exact c7_nearPlane_alwaysVisible idMat4 idMat4 (Vec4.mk 0 0 0 1) (fun _ _ => false)
      (by norm_num [mulMatVec, idMat4, CAMERA_CFG_near])

/-! ## C9: the two-ended drawn-meshlets entry list -/

/-- The software slot is the plain `len - 1 - idx` once inside bounds: the
wrapping `u32` arithmetic never wraps for `idx < len < 2^32`. -/
theorem softwareSlot_eq (len idx : ℕ) (hlen : len < U32LIM) (hidx : idx < len) :
    softwareSlot len idx = len - 1 - idx := by
  unfold softwareSlot u32sub U32LIM at *
  omega

/-- **C9.** For an entry list of length `len` (a WGSL `u32`, so `len < 2^32`):
(1) storing hardware entry `i` writes slot `i` and storing software entry `j`
writes slot `len − 1 − j`; (2) the load helpers return exactly the pair the
corresponding store helper wrote at the same index (load-after-store round
trips, for both lists); (3) whenever `hw + sw ≤ len`, the hardware slots
`{0..hw−1}` and the software slots `{len−sw..len−1}` are disjoint: no entry
slot is written by both lists. -/
theorem c9_twoEndedList (len : ℕ) (lst : DrawnList) (i j tfxIdx meshletIdx hw sw : ℕ)
    (hlen : len < U32LIM) (hj : j < len) :
    (hardwareSlot i = i ∧ softwareSlot len j = len - 1 - j) ∧
    (getMeshletHardwareDraw (storeMeshletHardwareDraw lst i tfxIdx meshletIdx) i
        = (tfxIdx, meshletIdx) ∧
      getMeshletSoftwareDraw len (storeMeshletSoftwareDraw len lst j tfxIdx meshletIdx) j
        = (tfxIdx, meshletIdx)) ∧
    (hw + sw ≤ len → i < hw → j < sw → hardwareSlot i ≠ softwareSlot len j) := by
  refine ⟨⟨rfl, softwareSlot_eq len j hlen hj⟩, ⟨?_, ?_⟩, ?_⟩
  · unfold getMeshletHardwareDraw storeMeshletHardwareDraw
    simp [Function.update]
  · unfold getMeshletSoftwareDraw storeMeshletSoftwareDraw
    simp [Function.update]
  · intro hcap hihw hjsw
    rw [hardwareSlot, softwareSlot_eq len j hlen hj]
    omega

/-- Witness for C9 at `len = 10`, `i = 2`, `j = 3`, `hw = 4`, `sw = 5`. -/
theorem c9_twoEndedList_witness :
    (10 : ℕ) < U32LIM ∧ (3 : ℕ) < 10 ∧
    ((hardwareSlot 2 = 2 ∧ softwareSlot 10 3 = 10 - 1 - 3) ∧
      (getMeshletHardwareDraw
          (storeMeshletHardwareDraw (fun _ => (0, 0)) 2 7 8) 2 = (7, 8) ∧
        getMeshletSoftwareDraw 10
          (storeMeshletSoftwareDraw 10 (fun _ => (0, 0)) 3 7 8) 3 = (7, 8)) ∧
      (4 + 5 ≤ 10 → 2 < 4 → 3 < 5 → hardwareSlot 2 ≠ softwareSlot 10 3)) := by
  refine ⟨by norm_num [U32LIM], by norm_num, ?_⟩
  exact c9_twoEndedList 10 (fun _ => (0, 0)) 2 3 7 8 4 5 (by norm_num [U32LIM])
    (by norm_num)

/-! ## Helper lemmas: ExtQ order, closed forms, level machinery -/



/-! ## ExtQ order lemmas -/

theorem ExtQ.ble_refl (a : ExtQ) : a.ble a = true := by
  cases a <;> simp [ExtQ.ble]

theorem ExtQ.ble_trans {a b c : ExtQ} (h1 : a.ble b = true) (h2 : b.ble c = true) :
    a.ble c = true := by
  cases a <;> cases b <;> cases c <;> simp_all [ExtQ.ble]
  exact le_trans h1 h2

theorem ExtQ.ble_maxE_left (a b : ExtQ) : a.ble (a.maxE b) = true := by
  cases a <;> cases b <;> simp [ExtQ.ble, ExtQ.maxE, le_max_left]

theorem ExtQ.ble_maxE_right (a b : ExtQ) : b.ble (a.maxE b) = true := by
  cases a <;> cases b <;> simp [ExtQ.ble, ExtQ.maxE, le_max_right]

theorem foldl_maxE_mono {a acc : ExtQ} (l : List ExtQ) (h : a.ble acc = true) :
    a.ble (l.foldl ExtQ.maxE acc) = true := by
  induction l generalizing acc with
  | nil => exact h
  | cons x xs ih =>
    exact ih (ExtQ.ble_trans h (ExtQ.ble_maxE_left acc x))

theorem ble_foldl_maxE_of_mem {a : ExtQ} {l : List ExtQ} (h : a ∈ l) :
    ∀ acc, a.ble (l.foldl ExtQ.maxE acc) = true := by
  induction l with
  | nil => cases h
  | cons x xs ih =>
    intro acc
    rcases List.mem_cons.mp h with rfl | hmem
    · exact foldl_maxE_mono xs (ExtQ.ble_maxE_right acc a)
    · exact ih hmem (acc.maxE x)

theorem ble_jsMathMax_of_mem {a : ExtQ} {l : List ExtQ} (h : a ∈ l) :
    a.ble (jsMathMax l) = true :=
  ble_foldl_maxE_of_mem h ExtQ.negInf

theorem ExtQ.addQ_mono {q : ℚ} (hq : 0 ≤ q) {a b : ExtQ} (h : a.ble b = true) :
    a.ble (ExtQ.addQ q b) = true := by
  cases a <;> cases b <;> simp_all [ExtQ.ble, ExtQ.addQ]
  linarith

theorem ExtQ.maxE_ne_inf {a b : ExtQ} (ha : a ≠ ExtQ.inf) (hb : b ≠ ExtQ.inf) :
    a.maxE b ≠ ExtQ.inf := by
  cases a <;> cases b <;> simp_all [ExtQ.maxE]

theorem foldl_maxE_ne_inf {acc : ExtQ} {l : List ExtQ} (hacc : acc ≠ ExtQ.inf)
    (h : ∀ x ∈ l, x ≠ ExtQ.inf) : l.foldl ExtQ.maxE acc ≠ ExtQ.inf := by
  induction l generalizing acc with
  | nil => exact hacc
  | cons x xs ih =>
    exact ih (ExtQ.maxE_ne_inf hacc (h x (List.mem_cons_self x xs)))
      (fun y hy => h y (List.mem_cons_of_mem x hy))

theorem jsMathMax_ne_inf {l : List ExtQ} (h : ∀ x ∈ l, x ≠ ExtQ.inf) :
    jsMathMax l ≠ ExtQ.inf :=
  foldl_maxE_ne_inf (by simp) h

theorem ExtQ.addQ_ne_inf {q : ℚ} {a : ExtQ} (ha : a ≠ ExtQ.inf) :
    ExtQ.addQ q a ≠ ExtQ.inf := by
  cases a <;> simp_all [ExtQ.addQ]

/-! ## Closed forms of the creation helpers -/

theorem createMeshletWip_eq (lodLevel : ℕ) (idxs : List ℕ) (e : ExtQ) (cf : List ℕ)
    (b : BoundingSphere) (s : BuildState) :
    createMeshletWip lodLevel idxs e cf b s =
      ({ allMeshlets := s.allMeshlets ++ [mkWip lodLevel idxs e cf b s.nextMeshletId]
         nextMeshletId := s.nextMeshletId + 1
         warnings := s.warnings }, s.nextMeshletId) := rfl

theorem splitIntoMeshletsAux_eq (lodLevel : ℕ) (e : ExtQ) (cf : List ℕ)
    (b : BoundingSphere) : ∀ (L : List (List ℕ)) (s : BuildState),
    splitIntoMeshletsAux lodLevel e cf b L s =
      ({ allMeshlets := s.allMeshlets ++ wipsFrom lodLevel e cf b s.nextMeshletId L
         nextMeshletId := s.nextMeshletId + L.length
         warnings := s.warnings }, List.range' s.nextMeshletId L.length)
  | [], s => by simp [splitIntoMeshletsAux, wipsFrom, List.range']
  | idxs :: rest, s => by
    simp only [splitIntoMeshletsAux, createMeshletWip_eq,
      splitIntoMeshletsAux_eq lodLevel e cf b rest, wipsFrom, List.range'_succ,
      Prod.mk.injEq, BuildState.mk.injEq]
    refine ⟨⟨by simp, by simp +arith, trivial⟩, by simp [List.range'_succ]⟩

/-! ## Characterization of `processGroup` -/

theorem processGroup_stall {env : Env} {s : BuildState} {g : List ℕ}
    (lodLevel : ℕ) (singleGroup : Bool) (h : groupStalls env s g) :
    processGroup env lodLevel singleGroup s g =
      ({ s with warnings := s.warnings ++
          [(groupTrianglesBefore s g, groupTrianglesAfter env s g)] },
       { groupIds := g, trianglesBefore := groupTrianglesBefore s g,
         trianglesAfter := groupTrianglesAfter env s g, stalled := true, newIds := [],
         statePre := s,
         state := { s with warnings := s.warnings ++
            [(groupTrianglesBefore s g, groupTrianglesAfter env s g)] } }) := by
  unfold processGroup
  dsimp only
  split
  · rfl
  · next hc => exact absurd h hc

theorem processGroup_survive {env : Env} {s : BuildState} {g : List ℕ}
    (lodLevel : ℕ) (singleGroup : Bool) (h : ¬ groupStalls env s g) :
    processGroup env lodLevel singleGroup s g =
      (groupSurviveState env lodLevel singleGroup s g,
       { groupIds := g, trianglesBefore := groupTrianglesBefore s g,
         trianglesAfter := groupTrianglesAfter env s g, stalled := false,
         newIds := (groupCreated env lodLevel singleGroup s g).2, statePre := s,
         state := groupSurviveState env lodLevel singleGroup s g }) := by
  unfold processGroup
  dsimp only
  split
  · next hc => exact absurd hc h
  · rfl

theorem processGroup_statePre (env : Env) (lodLevel : ℕ) (singleGroup : Bool)
    (s : BuildState) (g : List ℕ) :
    (processGroup env lodLevel singleGroup s g).2.statePre = s := by
  by_cases h : groupStalls env s g
  · rw [processGroup_stall lodLevel singleGroup h]
  · rw [processGroup_survive lodLevel singleGroup h]

theorem processGroup_state (env : Env) (lodLevel : ℕ) (singleGroup : Bool)
    (s : BuildState) (g : List ℕ) :
    (processGroup env lodLevel singleGroup s g).2.state
      = (processGroup env lodLevel singleGroup s g).1 := by
  by_cases h : groupStalls env s g
  · rw [processGroup_stall lodLevel singleGroup h]
  · rw [processGroup_survive lodLevel singleGroup h]

theorem processGroup_stalled_iff (env : Env) (lodLevel : ℕ) (singleGroup : Bool)
    (s : BuildState) (g : List ℕ) :
    (processGroup env lodLevel singleGroup s g).2.stalled = true ↔ groupStalls env s g := by
  by_cases h : groupStalls env s g
  · rw [processGroup_stall lodLevel singleGroup h]; simpa
  · rw [processGroup_survive lodLevel singleGroup h]; simpa


/-! ## Level loop machinery -/

theorem runLevels_zero (useMap : Bool) (env : Env) (lodLevel : ℕ) (current : List ℕ)
    (s : BuildState) : runLevels useMap env 0 lodLevel current s = ([], .ok s) := rfl

theorem runLevels_succ (useMap : Bool) (env : Env) (fuel lodLevel : ℕ) (current : List ℕ)
    (s : BuildState) :
    runLevels useMap env (fuel + 1) lodLevel current s =
      if current.length < 2 then ([], .ok s)
      else
        let partitioned := levelPartitioned useMap env s current
        let pg := processGroups env lodLevel (partitioned.length == 1) partitioned s
        let newIds := pg.2.flatMap (fun g => g.newIds)
        let lv : LevelLog := { lodLevel := lodLevel, current := current,
                               partitioned := partitioned, groupLogs := pg.2 }
        if lodLevel == 1 && newIds.isEmpty then
          ([lv], .error { lodLevel := lodLevel - 1, vertexCount := env.vertexCount })
        else
          ((lv :: (runLevels useMap env fuel (lodLevel + 1) newIds pg.1).1),
            (runLevels useMap env fuel (lodLevel + 1) newIds pg.1).2) := rfl

theorem processGroups_nil (env : Env) (lodLevel : ℕ) (singleGroup : Bool) (s : BuildState) :
    processGroups env lodLevel singleGroup [] s = (s, []) := rfl

theorem processGroups_cons (env : Env) (lodLevel : ℕ) (singleGroup : Bool) (s : BuildState)
    (g : List ℕ) (Gs : List (List ℕ)) :
    processGroups env lodLevel singleGroup (g :: Gs) s =
      ((processGroups env lodLevel singleGroup Gs (processGroup env lodLevel singleGroup s g).1).1,
        (processGroup env lodLevel singleGroup s g).2 ::
          (processGroups env lodLevel singleGroup Gs (processGroup env lodLevel singleGroup s g).1).2) := rfl

theorem processGroups_pres {env : Env} {lodLevel : ℕ} {singleGroup : Bool}
    (P : BuildState → Prop)
    (h : ∀ s g, P s → P (processGroup env lodLevel singleGroup s g).1) :
    ∀ (Gs : List (List ℕ)) (s : BuildState), P s →
      P (processGroups env lodLevel singleGroup Gs s).1 ∧
      ∀ gl ∈ (processGroups env lodLevel singleGroup Gs s).2, P gl.statePre ∧ P gl.state := by
  intro Gs
  induction Gs with
  | nil => intro s hs; exact ⟨hs, by simp [processGroups]⟩
  | cons g Gs ih =>
    intro s hs
    have h1 := h s g hs
    obtain ⟨hfin, hall⟩ := ih _ h1
    rw [processGroups_cons]
    refine ⟨hfin, ?_⟩
    intro gl hgl
    rcases List.mem_cons.mp hgl with rfl | hmem
    · rw [processGroup_statePre, processGroup_state]
      exact ⟨hs, h1⟩
    · exact hall gl hmem

theorem runLevels_pres {useMap : Bool} {env : Env} (P : BuildState → Prop)
    (h : ∀ lodLevel singleGroup s g, P s → P (processGroup env lodLevel singleGroup s g).1) :
    ∀ fuel lodLevel current s, P s →
      (∀ lv ∈ (runLevels useMap env fuel lodLevel current s).1,
        ∀ gl ∈ lv.groupLogs, P gl.statePre ∧ P gl.state) ∧
      (∀ st, (runLevels useMap env fuel lodLevel current s).2 = Except.ok st → P st) := by
  intro fuel
  induction fuel with
  | zero =>
    intro lodLevel current s hs
    rw [runLevels_zero]
    exact ⟨by simp, fun st hst => by cases hst; exact hs⟩
  | succ n ih =>
    intro lodLevel current s hs
    rw [runLevels_succ]
    by_cases hlen : current.length < 2
    · rw [if_pos hlen]
      exact ⟨by simp, fun st hst => by cases hst; exact hs⟩
    · rw [if_neg hlen]
      dsimp only
      obtain ⟨hfin, hall⟩ := processGroups_pres P (h lodLevel _) (levelPartitioned useMap env s current) s hs
      split
      · exact ⟨by simpa using hall, fun st hst => by cases hst⟩
      · obtain ⟨ih1, ih2⟩ := ih (lodLevel + 1) _ _ hfin
        refine ⟨?_, ih2⟩
        intro lv hlv
        rcases List.mem_cons.mp hlv with rfl | hmem
        · exact hall
        · exact ih1 lv hmem

theorem getLastD_append {α : Type} (a b : List α) (d : α) :
    (a ++ b).getLastD d = b.getLastD (a.getLastD d) := by
  induction a generalizing d with
  | nil => rfl
  | cons x xs ih => rw [List.cons_append, List.getLastD_cons, List.getLastD_cons, ih]

theorem processGroups_last (env : Env) (lodLevel : ℕ) (singleGroup : Bool) :
    ∀ (Gs : List (List ℕ)) (s : BuildState),
      (processGroups env lodLevel singleGroup Gs s).1 =
        (((processGroups env lodLevel singleGroup Gs s).2).map (fun gl => gl.state)).getLastD s := by
  intro Gs
  induction Gs with
  | nil => intro s; rfl
  | cons g Gs ih =>
    intro s
    rw [processGroups_cons]
    dsimp only [List.map_cons]
    rw [List.getLastD_cons, processGroup_state]
    exact ih _

theorem runLevels_ok_state {useMap : Bool} {env : Env} :
    ∀ fuel lodLevel current s st,
      (runLevels useMap env fuel lodLevel current s).2 = Except.ok st →
      st = lastGroupState (runLevels useMap env fuel lodLevel current s).1 s := by
  intro fuel
  induction fuel with
  | zero =>
    intro lodLevel current s st hst
    cases hst
    rfl
  | succ n ih =>
    intro lodLevel current s st hst
    rw [runLevels_succ] at hst ⊢
    by_cases hlen : current.length < 2
    · rw [if_pos hlen] at hst ⊢
      cases hst; rfl
    · rw [if_neg hlen] at hst ⊢
      dsimp only at hst ⊢
      split at hst
      · cases hst
      · next hcond =>
        rw [if_neg hcond]
        rw [ih _ _ _ _ hst]
        unfold lastGroupState
        rw [List.flatMap_cons, List.map_append, getLastD_append, ← processGroups_last]





/-! ## Store bookkeeping lemmas -/

theorem range_append_range' (n k : ℕ) : List.range n ++ List.range' n k = List.range (n + k) := by
  rw [List.range_eq_range', List.range_eq_range']
  simpa [Nat.add_comm] using List.range'_append_1 0 n k

theorem setParentOfGroup_map_id (g : List ℕ) (pe : ExtQ) (pb : Option BoundingSphere)
    (store : List MeshletWIP) :
    (setParentOfGroup g pe pb store).map (fun m => m.id) = store.map (fun m => m.id) := by
  unfold setParentOfGroup
  rw [List.map_map]
  apply List.map_congr_left
  intro m _
  dsimp only [Function.comp]
  split <;> rfl

theorem setParentOfGroup_length (g : List ℕ) (pe : ExtQ) (pb : Option BoundingSphere)
    (store : List MeshletWIP) :
    (setParentOfGroup g pe pb store).length = store.length := by
  unfold setParentOfGroup; exact List.length_map _ _

theorem wipsFrom_map_id (lodLevel : ℕ) (e : ExtQ) (cf : List ℕ) (b : BoundingSphere) :
    ∀ (i : ℕ) (L : List (List ℕ)),
      (wipsFrom lodLevel e cf b i L).map (fun m => m.id) = List.range' i L.length
  | _, [] => rfl
  | i, idxs :: rest => by
    simp only [wipsFrom, List.map_cons, wipsFrom_map_id lodLevel e cf b (i + 1) rest, mkWip]
    rw [List.length_cons, List.range'_succ]

theorem wipsFrom_length (lodLevel : ℕ) (e : ExtQ) (cf : List ℕ) (b : BoundingSphere) :
    ∀ (i : ℕ) (L : List (List ℕ)), (wipsFrom lodLevel e cf b i L).length = L.length
  | _, [] => rfl
  | i, idxs :: rest => by
    simp only [wipsFrom, List.length_cons, wipsFrom_length lodLevel e cf b (i + 1) rest]

theorem findMeshlet_eq_of_mem {store : List MeshletWIP} {m : MeshletWIP}
    (hids : (store.map (fun m => m.id)).Nodup) (hm : m ∈ store) :
    findMeshlet store m.id = some m := by
  induction store with
  | nil => cases hm
  | cons x rest ih =>
    rcases List.mem_cons.mp hm with rfl | hmem
    · simp [findMeshlet, List.find?]
    · have hne : x.id ≠ m.id := by
        intro he
        apply (List.nodup_cons.mp hids).1
        show x.id ∈ List.map (fun m => m.id) rest
        rw [he]
        exact List.mem_map_of_mem (fun m => m.id) hmem
      simp only [findMeshlet, List.find?]
      rw [show (x.id == m.id) = false by simpa using hne]
      exact ih (List.nodup_cons.mp hids).2 hmem

theorem findMeshlet_mem {store : List MeshletWIP} {i : ℕ} {m : MeshletWIP}
    (h : findMeshlet store i = some m) : m ∈ store ∧ m.id = i :=
  ⟨List.mem_of_find?_eq_some h, by simpa using List.find?_some h⟩

theorem groupMeshlets_sub {s : BuildState} {g : List ℕ} {m : MeshletWIP}
    (h : m ∈ groupMeshlets s g) : m ∈ s.allMeshlets ∧ m.id ∈ g := by
  obtain ⟨i, hig, hfind⟩ := List.mem_filterMap.mp h
  obtain ⟨hmem, hid⟩ := findMeshlet_mem hfind
  exact ⟨hmem, by rwa [hid]⟩

theorem mem_groupMeshlets {s : BuildState} {g : List ℕ} {m : MeshletWIP}
    (hids : (s.allMeshlets.map (fun m => m.id)).Nodup)
    (hm : m ∈ s.allMeshlets) (hg : m.id ∈ g) : m ∈ groupMeshlets s g :=
  List.mem_filterMap.mpr ⟨m.id, hg, findMeshlet_eq_of_mem hids hm⟩

theorem storeIds_nodup {s : BuildState} (h : StoreIds s) :
    (s.allMeshlets.map (fun m => m.id)).Nodup := by
  rw [h.1]; exact List.nodup_range _

/-! ## Invariant preservation: `StoreIds` -/

theorem groupCreated_char (env : Env) (lodLevel : ℕ) (singleGroup : Bool)
    (s : BuildState) (g : List ℕ) :
    ∃ L : List (List ℕ),
      groupCreated env lodLevel singleGroup s g =
        ({ allMeshlets := s.allMeshlets ++
             wipsFrom lodLevel (groupTotalError env s g) g (groupBounds env s g)
               s.nextMeshletId L
           nextMeshletId := s.nextMeshletId + L.length
           warnings := s.warnings }, List.range' s.nextMeshletId L.length) := by
  unfold groupCreated
  by_cases hsg : singleGroup
  · refine ⟨[(groupSimplified env s g).indexBuffer], ?_⟩
    rw [if_pos hsg]
    simp [createMeshletWip_eq, wipsFrom, mkWip, List.range']
  · refine ⟨env.split (groupSimplified env s g).indexBuffer, ?_⟩
    rw [if_neg hsg]
    unfold splitIntoMeshlets
    exact splitIntoMeshletsAux_eq _ _ _ _ _ _

theorem processGroup_pres_storeIds (env : Env) (lodLevel : ℕ) (singleGroup : Bool)
    (s : BuildState) (g : List ℕ) (h : StoreIds s) :
    StoreIds (processGroup env lodLevel singleGroup s g).1 := by
  by_cases hc : groupStalls env s g
  · rw [processGroup_stall lodLevel singleGroup hc]
    exact h
  · rw [processGroup_survive lodLevel singleGroup hc]
    obtain ⟨L, hL⟩ := groupCreated_char env lodLevel singleGroup s g
    unfold groupSurviveState
    rw [hL]
    constructor
    · dsimp only
      rw [setParentOfGroup_map_id, List.map_append, setParentOfGroup_length,
        List.length_append, h.1, wipsFrom_map_id, wipsFrom_length, h.2,
        range_append_range']
    · dsimp only
      rw [setParentOfGroup_length, List.length_append, h.2, wipsFrom_length]

theorem bottom_storeIds (env : Env) :
    StoreIds (splitIntoMeshlets env 0 env.meshIndices (ExtQ.fin 0) []
      (env.calcBounds env.meshIndices)
      { allMeshlets := [], nextMeshletId := 0, warnings := [] }).1 := by
  unfold splitIntoMeshlets
  rw [splitIntoMeshletsAux_eq]
  constructor
  · dsimp only
    rw [List.nil_append, wipsFrom_map_id, wipsFrom_length, ← List.range_eq_range']
  · dsimp only
    rw [List.nil_append, wipsFrom_length, Nat.zero_add]

/-! ## Snapshot preservation at the run level -/

theorem runNanite_snapshots_pres {useMap : Bool} {env : Env} {initId : ℕ}
    (P : BuildState → Prop)
    (hstep : ∀ lodLevel singleGroup s g, P s → P (processGroup env lodLevel singleGroup s g).1)
    (hbot : P (runNanite useMap env initId).bottomState) :
    (∀ st ∈ (runNanite useMap env initId).snapshots, P st) ∧
    (∀ st, (runNanite useMap env initId).result = Except.ok st → P st) := by
  have hlv := @runLevels_pres useMap env P hstep MAX_LODS 1
    (runNanite useMap env initId).bottomIds (runNanite useMap env initId).bottomState hbot
  constructor
  · intro st hst
    rcases List.mem_cons.mp hst with rfl | hmem
    · exact hbot
    · obtain ⟨gl, hgl, rfl⟩ := List.mem_map.mp hmem
      obtain ⟨lv, hlvmem, hglmem⟩ := List.mem_flatMap.mp hgl
      exact (hlv.1 lv hlvmem gl hglmem).2
  · exact hlv.2

theorem runNanite_storeIds {useMap : Bool} {env : Env} {initId : ℕ} :
    ∀ st ∈ (runNanite useMap env initId).snapshots, StoreIds st :=
  (runNanite_snapshots_pres StoreIds
    (fun lodLevel singleGroup s g h => processGroup_pres_storeIds env lodLevel singleGroup s g h)
    (bottom_storeIds env)).1


/-! ## Invariant preservation: `NodeErrInv` (claim C1) -/

theorem mem_wipsFrom {lodLevel : ℕ} {e : ExtQ} {cf : List ℕ} {b : BoundingSphere} :
    ∀ {i : ℕ} {L : List (List ℕ)} {m : MeshletWIP}, m ∈ wipsFrom lodLevel e cf b i L →
      m.maxSiblingsError = e ∧ m.parentError = ExtQ.inf ∧ m.parentBounds = none ∧
        m.lodLevel = lodLevel := by
  intro i L
  induction L generalizing i with
  | nil => intro m hm; cases hm
  | cons idxs rest ih =>
    intro m hm
    rcases List.mem_cons.mp hm with rfl | hmem
    · exact ⟨rfl, rfl, rfl, rfl⟩
    · exact ih hmem

theorem groupTotalError_ne_inf {env : Env} {s : BuildState} (g : List ℕ)
    (hS : ∀ m ∈ s.allMeshlets, NodeErrInv m) : groupTotalError env s g ≠ ExtQ.inf := by
  apply ExtQ.addQ_ne_inf
  apply jsMathMax_ne_inf
  intro x hx
  obtain ⟨m, hm, rfl⟩ := List.mem_map.mp hx
  exact (hS m (groupMeshlets_sub hm).1).2.2

theorem processGroup_pres_nodeErr (env : Env) (hS : SimplifyNonneg env) (lodLevel : ℕ)
    (singleGroup : Bool) (s : BuildState) (g : List ℕ)
    (h : StoreIds s ∧ ∀ m ∈ s.allMeshlets, NodeErrInv m) :
    StoreIds (processGroup env lodLevel singleGroup s g).1 ∧
    ∀ m ∈ (processGroup env lodLevel singleGroup s g).1.allMeshlets, NodeErrInv m := by
  refine ⟨processGroup_pres_storeIds env lodLevel singleGroup s g h.1, ?_⟩
  by_cases hc : groupStalls env s g
  · rw [processGroup_stall lodLevel singleGroup hc]
    exact h.2
  · rw [processGroup_survive lodLevel singleGroup hc]
    have htot := @groupTotalError_ne_inf env s g h.2
    obtain ⟨L, hL⟩ := groupCreated_char env lodLevel singleGroup s g
    unfold groupSurviveState
    rw [hL]
    dsimp only
    intro m' hm'
    unfold setParentOfGroup at hm'
    obtain ⟨m, hm, rfl⟩ := List.mem_map.mp hm'
    rcases List.mem_append.mp hm with hold | hnew
    · by_cases hg : g.contains m.id
      · rw [if_pos hg]
        refine ⟨by simp [htot], fun _ => ?_, (h.2 m hold).2.2⟩
        dsimp only
        apply ExtQ.addQ_mono (hS _ _)
        apply ble_jsMathMax_of_mem
        exact List.mem_map.mpr
          ⟨m, mem_groupMeshlets (storeIds_nodup h.1) hold (by simpa using hg), rfl⟩
      · rw [if_neg hg]
        exact h.2 m hold
    · obtain ⟨hmax, hpe, hpb, _⟩ := mem_wipsFrom hnew
      by_cases hg : g.contains m.id
      · rw [if_pos hg]
        refine ⟨by simp [htot], fun _ => ?_, by simp [hmax, htot]⟩
        dsimp only
        rw [hmax]
        exact ExtQ.ble_refl _
      · rw [if_neg hg]
        exact ⟨by simp [hpb, hpe], fun hcon => absurd hpb hcon, by simp [hmax, htot]⟩

theorem bottom_nodeErr (env : Env) :
    ∀ m ∈ (splitIntoMeshlets env 0 env.meshIndices (ExtQ.fin 0) []
      (env.calcBounds env.meshIndices)
      { allMeshlets := [], nextMeshletId := 0, warnings := [] }).1.allMeshlets,
      NodeErrInv m := by
  unfold splitIntoMeshlets
  rw [splitIntoMeshletsAux_eq]
  dsimp only
  intro m hm
  rw [List.nil_append] at hm
  obtain ⟨hmax, hpe, hpb, _⟩ := mem_wipsFrom hm
  exact ⟨by simp [hpb, hpe], fun hcon => absurd hpb hcon, by simp [hmax]⟩

/-! ## C1: the parent-error / root invariant -/

/-- **C1.** In every intermediate and final state of `createNaniteMeshlets`
(after the bottom split and after each processed merge group, hence in the
returned meshlet list), every `MeshletWIP` satisfies: it is a DAG root
(`isWIP_Root`) iff `parentBounds` is `undefined`, which holds iff
`parentError = +Infinity`; and once a parent exists (`parentBounds`
assigned), `parentError ≥ maxSiblingsError` (its own error). The only
assumption is the simplifier contract `SimplifyNonneg` (meshoptimizer errors
are nonnegative): error accumulation makes the parent error at least the
child's own error. -/
theorem c1_root_iff_and_parentError_ge (useMap : Bool) (env : Env) (initId : ℕ)
    (hS : SimplifyNonneg env) :
    ∀ st ∈ (runNanite useMap env initId).snapshots, ∀ m ∈ st.allMeshlets,
      (isWIP_Root m ↔ m.parentBounds = none) ∧
      (m.parentBounds = none ↔ m.parentError = ExtQ.inf) ∧
      (m.parentBounds ≠ none → ExtQ.ble m.maxSiblingsError m.parentError = true) := by
  have key := (@runNanite_snapshots_pres useMap env initId
    (fun s => StoreIds s ∧ ∀ m ∈ s.allMeshlets, NodeErrInv m)
    (fun lodLevel singleGroup s g hP => processGroup_pres_nodeErr env hS lodLevel singleGroup s g hP)
    ⟨bottom_storeIds env, bottom_nodeErr env⟩).1
  intro st hst m hm
  obtain ⟨h1, h2, _⟩ := (key st hst).2 m hm
  exact ⟨Iff.rfl, h1, h2⟩

/-- Witness for C1: the fixture environment `envC2` satisfies the simplifier
contract, and the invariant therefore holds throughout its run. -/
theorem c1_root_iff_and_parentError_ge_witness :
    SimplifyNonneg envC2 ∧
    (∀ st ∈ (runNanite true envC2 0).snapshots, ∀ m ∈ st.allMeshlets,
      (isWIP_Root m ↔ m.parentBounds = none) ∧
      (m.parentBounds = none ↔ m.parentError = ExtQ.inf) ∧
      (m.parentBounds ≠ none → ExtQ.ble m.maxSiblingsError m.parentError = true)) := by
  have hS : SimplifyNonneg envC2 := by
    unfold SimplifyNonneg envC2
    intro mega targetIndexCount
    dsimp only
    split <;> norm_num
  exact ⟨hS, c1_root_iff_and_parentError_ge true envC2 0 hS⟩

/-! ## C10: meshlet id assignment -/

/-- **C10.** In every intermediate and final state of one
`createNaniteMeshlets` call: the stored meshlets carry the ids
`0, 1, …, N − 1` in creation order (so ids are pairwise distinct within the
call), and the `NEXT_MESHLET_ID` counter equals the number of created
meshlets (it started at 0 and was incremented once per creation). Moreover
the run is completely independent of the value the module-level counter held
before the call (line 81 resets it to 0), so a subsequent call reuses the
same id values starting again from 0: ids are unique only within one call. -/
theorem c10_ids_are_range (useMap : Bool) (env : Env) (initId : ℕ) :
    (∀ st ∈ (runNanite useMap env initId).snapshots,
      st.allMeshlets.map (fun m => m.id) = List.range st.allMeshlets.length ∧
      st.nextMeshletId = st.allMeshlets.length) ∧
    runNanite useMap env initId = runNanite useMap env 0 :=
  ⟨fun st hst => runNanite_storeIds st hst, rfl⟩

/-- Witness for C10 at the fixture environment, instantiated at the final
state of the run (a member of the snapshot list). -/
theorem c10_ids_are_range_witness :
    (runNanite true envC2 7).finalState ∈ (runNanite true envC2 7).snapshots ∧
    ((runNanite true envC2 7).finalState.allMeshlets.map (fun m => m.id) =
      List.range (runNanite true envC2 7).finalState.allMeshlets.length ∧
     (runNanite true envC2 7).finalState.nextMeshletId =
      (runNanite true envC2 7).finalState.allMeshlets.length) := by
  have hmem : (runNanite true envC2 7).finalState ∈ (runNanite true envC2 7).snapshots :=
    List.getLast_mem _
  exact ⟨hmem, (c10_ids_are_range true envC2 7).1 _ hmem⟩


/-! ## Error-path characterization -/

theorem runLevels_ok_of_two_le {useMap : Bool} {env : Env} :
    ∀ fuel lodLevel current s, 2 ≤ lodLevel →
      ∃ st, (runLevels useMap env fuel lodLevel current s).2 = Except.ok st := by
  intro fuel
  induction fuel with
  | zero => intro lodLevel current s _; exact ⟨s, rfl⟩
  | succ n ih =>
    intro lodLevel current s hlod
    rw [runLevels_succ]
    by_cases hlen : current.length < 2
    · rw [if_pos hlen]; exact ⟨s, rfl⟩
    · rw [if_neg hlen]
      dsimp only
      have hne : (lodLevel == 1) = false := by
        simp only [beq_eq_false_iff_ne, ne_eq]
        omega
      rw [hne, Bool.false_and, if_neg Bool.false_ne_true]
      exact ih (lodLevel + 1) _ _ (by omega)

theorem runLevels_error_char {useMap : Bool} {env : Env} (fuel : ℕ) (current : List ℕ)
    (s : BuildState) (e : SimplificationErrorData) :
    (runLevels useMap env (fuel + 1) 1 current s).2 = Except.error e ↔
      (2 ≤ current.length ∧
        ((processGroups env 1 ((levelPartitioned useMap env s current).length == 1)
            (levelPartitioned useMap env s current) s).2.flatMap
          (fun gl => gl.newIds)) = [] ∧
        e = { lodLevel := 0, vertexCount := env.vertexCount }) := by
  rw [runLevels_succ]
  by_cases hlen : current.length < 2
  · rw [if_pos hlen]
    simp only [Except.ok.injEq]
    constructor
    · intro hcon; cases hcon
    · intro ⟨h2, _⟩; omega
  · rw [if_neg hlen]
    dsimp only
    by_cases hcond : (((1 : ℕ) == 1) &&
        ((processGroups env 1 ((levelPartitioned useMap env s current).length == 1)
          (levelPartitioned useMap env s current) s).2.flatMap
            (fun gl => gl.newIds)).isEmpty) = true
    · rw [if_pos hcond]
      simp only [Except.error.injEq]
      constructor
      · intro he
        refine ⟨by omega, ?_, he.symm⟩
        have := (Bool.and_eq_true _ _).mp hcond
        exact List.isEmpty_iff.mp this.2
      · intro ⟨_, _, he⟩; rw [he]
    · rw [if_neg hcond]
      obtain ⟨st, hst⟩ := @runLevels_ok_of_two_le useMap env fuel 2 _ _ (le_refl 2)
      rw [hst]
      constructor
      · intro hcon; cases hcon
      · intro ⟨_, hempty, _⟩
        exact absurd (by simpa [List.isEmpty_iff] using hempty) (by simpa using hcond)

theorem runLevels_error_logs {useMap : Bool} {env : Env} (fuel : ℕ) (current : List ℕ)
    (s : BuildState) (e : SimplificationErrorData)
    (h : (runLevels useMap env (fuel + 1) 1 current s).2 = Except.error e) :
    ∃ lv ∈ (runLevels useMap env (fuel + 1) 1 current s).1,
      lv.lodLevel = 1 ∧ lv.groupLogs.flatMap (fun gl => gl.newIds) = [] := by
  obtain ⟨h2, hempty, _⟩ := (runLevels_error_char fuel current s e).mp h
  rw [runLevels_succ]
  rw [if_neg (by omega)]
  dsimp only
  rw [if_pos (by simp [hempty])]
  exact ⟨_, List.mem_singleton_self _, rfl, hempty⟩

/-- `MAX_LODS` as successor, to apply the error characterizations. -/
theorem maxLods_succ : MAX_LODS = 19 + 1 := rfl

/-! ## C5: the fatal level-1 construction error -/

/-- **C5** (amended). When `createNaniteMeshlets` throws, the thrown
`SimplificationError` carries the LOD level (`lodLevel − 1 = 0`) and the
vertex count of the parsed mesh — and nothing else; the throw happens exactly
on the level-1 iteration (which requires at least two bottom meshlets)
producing zero newly created meshlets. -/
theorem c5_simplificationError_payload (useMap : Bool) (env : Env) (initId : ℕ)
    (e : SimplificationErrorData)
    (h : (runNanite useMap env initId).result = Except.error e) :
    e = { lodLevel := 0, vertexCount := env.vertexCount } ∧
    2 ≤ (runNanite useMap env initId).bottomIds.length ∧
    ∃ lv ∈ (runNanite useMap env initId).levels,
      lv.lodLevel = 1 ∧ lv.groupLogs.flatMap (fun gl => gl.newIds) = [] := by
  have h' : (runLevels useMap env (19 + 1) 1 (runNanite useMap env initId).bottomIds
      (runNanite useMap env initId).bottomState).2 = Except.error e := h
  obtain ⟨h2, hempty, he⟩ := (runLevels_error_char _ _ _ _).mp h'
  exact ⟨he, h2, runLevels_error_logs _ _ _ _ h'⟩


/-! ## Concrete evaluations of the fixture runs -/

theorem envErr6_eval :
    (runNanite true (envErr 6) 0).result =
      Except.error { lodLevel := 0, vertexCount := 100 } := by
  norm_num [runNanite, runLevels, processGroups, processGroup, splitIntoMeshlets,
    splitIntoMeshletsAux, createMeshletWip, setParentOfGroup, mergeMeshlets, findMeshlet,
    jsMathMax, ExtQ.maxE, ExtQ.addQ, getTriangleCount, calculateTargetIndexCount,
    SIMPLIFICATION_FACTOR_REQ, VERTS_IN_TRIANGLE, MAX_LODS, GROUP_SIZE, DECIMATE_FACTOR,
    envErr, chunk3, sphere0, findBoundaryEdges, listAllEdges, normEdge,
    List.range_succ, List.filterMap, List.flatMap]

theorem envErr9_eval :
    (runNanite true (envErr 9) 0).result =
      Except.error { lodLevel := 0, vertexCount := 100 } := by
  norm_num [runNanite, runLevels, processGroups, processGroup, splitIntoMeshlets,
    splitIntoMeshletsAux, createMeshletWip, setParentOfGroup, mergeMeshlets, findMeshlet,
    jsMathMax, ExtQ.maxE, ExtQ.addQ, getTriangleCount, calculateTargetIndexCount,
    SIMPLIFICATION_FACTOR_REQ, VERTS_IN_TRIANGLE, MAX_LODS, GROUP_SIZE, DECIMATE_FACTOR,
    envErr, chunk3, sphere0, findBoundaryEdges, listAllEdges, normEdge,
    List.range_succ, List.filterMap, List.flatMap]

/-- **C5** (counterexample to "the error reports the triangle count"). Two
input meshes with different triangle counts (2 and 3) but the same vertex
count both abort at level 1, and the thrown `SimplificationError` values are
exactly equal — the error carries the LOD level and the vertex count only, so
no function of the error can recover the input triangle count. -/
theorem c5_error_has_no_triangle_count :
    (runNanite true (envErr 6) 0).result =
        Except.error { lodLevel := 0, vertexCount := 100 } ∧
    (runNanite true (envErr 9) 0).result =
        Except.error { lodLevel := 0, vertexCount := 100 } ∧
    getTriangleCount (envErr 6).meshIndices = 2 ∧
    getTriangleCount (envErr 9).meshIndices = 3 :=
  ⟨envErr6_eval, envErr9_eval, by decide, by decide⟩

/-- Witness for C5: the amended payload theorem applied to the concrete
erroring run of `envErr 6`. -/
theorem c5_simplificationError_payload_witness :
    (runNanite true (envErr 6) 0).result =
        Except.error { lodLevel := 0, vertexCount := 100 } ∧
    ({ lodLevel := 0, vertexCount := 100 } : SimplificationErrorData) =
        { lodLevel := 0, vertexCount := (envErr 6).vertexCount } ∧
    2 ≤ (runNanite true (envErr 6) 0).bottomIds.length ∧
    ∃ lv ∈ (runNanite true (envErr 6) 0).levels,
      lv.lodLevel = 1 ∧ lv.groupLogs.flatMap (fun gl => gl.newIds) = [] :=
  ⟨envErr6_eval, (c5_simplificationError_payload true (envErr 6) 0 _ envErr6_eval).1,
    (c5_simplificationError_payload true (envErr 6) 0 _ envErr6_eval).2.1,
    (c5_simplificationError_payload true (envErr 6) 0 _ envErr6_eval).2.2⟩


/-! ## Root bookkeeping: freshly created meshlets are roots -/

theorem mem_of_getElem? {α : Type} {l : List α} {n : ℕ} {a : α} (h : l[n]? = some a) :
    a ∈ l := by
  obtain ⟨hlt, rfl⟩ := List.getElem?_eq_some.mp h
  exact List.getElem_mem hlt

theorem levelPartitioned_sub {useMap : Bool} {env : Env} {s : BuildState} {cur : List ℕ} :
    ∀ G ∈ levelPartitioned useMap env s cur, ∀ i ∈ G, i ∈ cur := by
  unfold levelPartitioned
  split
  · intro G hG i hi
    obtain ⟨idxs, _, rfl⟩ := List.mem_map.mp hG
    obtain ⟨j, _, hj⟩ := List.mem_filterMap.mp hi
    exact mem_of_getElem? hj
  · intro G hG i hi
    rw [List.mem_singleton.mp hG] at hi
    exact hi

theorem mem_wipsFrom_id {lodLevel : ℕ} {e : ExtQ} {cf : List ℕ} {b : BoundingSphere} :
    ∀ {i : ℕ} {L : List (List ℕ)} {m : MeshletWIP}, m ∈ wipsFrom lodLevel e cf b i L →
      i ≤ m.id := by
  intro i L
  induction L generalizing i with
  | nil => intro m hm; cases hm
  | cons idxs rest ih =>
    intro m hm
    rcases List.mem_cons.mp hm with rfl | hmem
    · exact le_refl _
    · exact le_trans (by omega) (ih hmem)

theorem processGroup_nextId_le (env : Env) (lodLevel : ℕ) (singleGroup : Bool)
    (s : BuildState) (g : List ℕ) :
    s.nextMeshletId ≤ (processGroup env lodLevel singleGroup s g).1.nextMeshletId := by
  by_cases hc : groupStalls env s g
  · rw [processGroup_stall lodLevel singleGroup hc]
  · rw [processGroup_survive lodLevel singleGroup hc]
    obtain ⟨L, hL⟩ := groupCreated_char env lodLevel singleGroup s g
    unfold groupSurviveState
    rw [hL]
    dsimp only
    omega

theorem processGroup_preserve_node (env : Env) (lodLevel : ℕ) (singleGroup : Bool)
    (s : BuildState) (g : List ℕ) {m : MeshletWIP} (hm : m ∈ s.allMeshlets)
    (hg : m.id ∉ g) : m ∈ (processGroup env lodLevel singleGroup s g).1.allMeshlets := by
  by_cases hc : groupStalls env s g
  · rw [processGroup_stall lodLevel singleGroup hc]
    exact hm
  · rw [processGroup_survive lodLevel singleGroup hc]
    obtain ⟨L, hL⟩ := groupCreated_char env lodLevel singleGroup s g
    unfold groupSurviveState
    rw [hL]
    dsimp only
    unfold setParentOfGroup
    have : m ∈ s.allMeshlets ++ wipsFrom lodLevel (groupTotalError env s g) g
        (groupBounds env s g) s.nextMeshletId L := List.mem_append_left _ hm
    refine List.mem_map.mpr ⟨m, this, ?_⟩
    rw [if_neg (by simpa using hg)]

theorem processGroup_fresh_roots (env : Env) (hsplit : SplitNonempty env) (lodLevel : ℕ)
    (singleGroup : Bool) (s : BuildState) (g : List ℕ)
    (hg : ∀ i ∈ g, i < s.nextMeshletId) :
    (∀ i ∈ (processGroup env lodLevel singleGroup s g).2.newIds,
      s.nextMeshletId ≤ i ∧ i < (processGroup env lodLevel singleGroup s g).1.nextMeshletId ∧
      ∃ m ∈ (processGroup env lodLevel singleGroup s g).1.allMeshlets,
        m.id = i ∧ m.parentBounds = none ∧ m.parentError = ExtQ.inf) ∧
    ((processGroup env lodLevel singleGroup s g).2.newIds = [] →
      (processGroup env lodLevel singleGroup s g).1.allMeshlets = s.allMeshlets) := by
  by_cases hc : groupStalls env s g
  · rw [processGroup_stall lodLevel singleGroup hc]
    exact ⟨by simp, fun _ => rfl⟩
  · rw [processGroup_survive lodLevel singleGroup hc]
    dsimp only
    have hNewNe : (groupCreated env lodLevel singleGroup s g).2 ≠ [] := by
      unfold groupCreated
      by_cases hsg : singleGroup
      · rw [if_pos hsg]
        simp
      · rw [if_neg hsg]
        unfold splitIntoMeshlets
        rw [splitIntoMeshletsAux_eq]
        dsimp only
        intro hcon
        have hlen := congrArg List.length hcon
        rw [List.length_range'] at hlen
        exact hsplit _ (List.length_eq_zero.mp hlen)
    obtain ⟨L, hL⟩ := groupCreated_char env lodLevel singleGroup s g
    have hSt := congrArg Prod.fst hL
    have hNew := congrArg Prod.snd hL
    dsimp only at hSt hNew
    refine ⟨?_, fun hnil => absurd hnil hNewNe⟩
    intro i hi
    rw [hNew, List.mem_range'_1] at hi
    refine ⟨hi.1, ?_, ?_⟩
    · unfold groupSurviveState
      rw [hSt]
      dsimp only
      omega
    · unfold groupSurviveState
      rw [hSt]
      dsimp only
      have hmap := wipsFrom_map_id lodLevel (groupTotalError env s g) g
        (groupBounds env s g) s.nextMeshletId L
      have hmem : i ∈ (wipsFrom lodLevel (groupTotalError env s g) g (groupBounds env s g)
          s.nextMeshletId L).map (fun m => m.id) := by
        rw [hmap]
        exact List.mem_range'_1.mpr hi
      obtain ⟨w, hw, hwid⟩ := List.mem_map.mp hmem
      have hwg : w.id ∉ g := by
        intro hcon
        have := hg _ hcon
        rw [hwid] at this
        omega
      refine ⟨w, ?_, hwid, (mem_wipsFrom hw).2.2.1, (mem_wipsFrom hw).2.1⟩
      unfold setParentOfGroup
      refine List.mem_map.mpr ⟨w, List.mem_append_right _ hw, ?_⟩
      rw [if_neg (by simpa using hwg)]


theorem processGroups_preserve_node (env : Env) (lodLevel : ℕ) (singleGroup : Bool) :
    ∀ (Gs : List (List ℕ)) (s : BuildState) (m : MeshletWIP), m ∈ s.allMeshlets →
      (∀ G ∈ Gs, m.id ∉ G) → m ∈ (processGroups env lodLevel singleGroup Gs s).1.allMeshlets := by
  intro Gs
  induction Gs with
  | nil => intro s m hm _; exact hm
  | cons g Gs ih =>
    intro s m hm hnotin
    rw [processGroups_cons]
    exact ih _ m
      (processGroup_preserve_node env lodLevel singleGroup s g hm (hnotin g (List.mem_cons_self g Gs)))
      (fun G hG => hnotin G (List.mem_cons_of_mem g hG))

theorem processGroups_fresh_roots (env : Env) (hsplit : SplitNonempty env) (lodLevel : ℕ)
    (singleGroup : Bool) :
    ∀ (Gs : List (List ℕ)) (s : BuildState), StoreIds s →
      (∀ G ∈ Gs, ∀ i ∈ G, i < s.nextMeshletId) →
      (s.nextMeshletId ≤ (processGroups env lodLevel singleGroup Gs s).1.nextMeshletId ∧
       StoreIds (processGroups env lodLevel singleGroup Gs s).1 ∧
       (∀ i ∈ (processGroups env lodLevel singleGroup Gs s).2.flatMap (fun gl => gl.newIds),
         s.nextMeshletId ≤ i ∧
         i < (processGroups env lodLevel singleGroup Gs s).1.nextMeshletId ∧
         ∃ m ∈ (processGroups env lodLevel singleGroup Gs s).1.allMeshlets,
           m.id = i ∧ m.parentBounds = none ∧ m.parentError = ExtQ.inf) ∧
       ((processGroups env lodLevel singleGroup Gs s).2.flatMap (fun gl => gl.newIds) = [] →
         (processGroups env lodLevel singleGroup Gs s).1.allMeshlets = s.allMeshlets)) := by
  intro Gs
  induction Gs with
  | nil =>
    intro s hids _
    exact ⟨le_refl _, hids, by simp [processGroups], fun _ => rfl⟩
  | cons g Gs ih =>
    intro s hids hbound
    have hg : ∀ i ∈ g, i < s.nextMeshletId := hbound g (List.mem_cons_self g Gs)
    have hgrp := processGroup_fresh_roots env hsplit lodLevel singleGroup s g hg
    have hle1 := processGroup_nextId_le env lodLevel singleGroup s g
    have hids1 := processGroup_pres_storeIds env lodLevel singleGroup s g hids
    have hbound1 : ∀ G ∈ Gs, ∀ i ∈ G, i < (processGroup env lodLevel singleGroup s g).1.nextMeshletId :=
      fun G hG i hi => lt_of_lt_of_le (hbound G (List.mem_cons_of_mem g hG) i hi) hle1
    obtain ⟨ihle, ihids, ihfresh, ihnil⟩ := ih _ hids1 hbound1
    rw [processGroups_cons]
    refine ⟨le_trans hle1 ihle, ihids, ?_, ?_⟩
    · intro i hi
      rw [List.flatMap_cons, List.mem_append] at hi
      rcases hi with hhead | htail
      · obtain ⟨h1, h2, m, hm, hmid, hmpb, hmpe⟩ := hgrp.1 i hhead
        refine ⟨h1, lt_of_lt_of_le h2 ihle, ?_⟩
        -- the fresh root survives the remaining groups: its id is ≥ every id they touch
        have hnotin : ∀ G ∈ Gs, m.id ∉ G := by
          intro G hG hcon
          have := hbound G (List.mem_cons_of_mem g hG) m.id hcon
          omega
        refine ⟨m, ?_, hmid, hmpb, hmpe⟩
        refine processGroups_preserve_node env lodLevel singleGroup Gs _ m hm ?_
        intro G hG hcon
        have := hbound G (List.mem_cons_of_mem g hG) m.id hcon
        omega
      · obtain ⟨h1, h2, hex⟩ := ihfresh i htail
        exact ⟨le_trans hle1 h1, h2, hex⟩
    · intro hnil
      rw [List.flatMap_cons, List.append_eq_nil] at hnil
      rw [ihnil hnil.2, hgrp.2 hnil.1]


theorem id_lt_nextId {s : BuildState} {m : MeshletWIP} (h : StoreIds s)
    (hm : m ∈ s.allMeshlets) : m.id < s.nextMeshletId := by
  have h1 : m.id ∈ s.allMeshlets.map (fun m => m.id) := List.mem_map.mpr ⟨m, hm, rfl⟩
  rw [h.1, List.mem_range] at h1
  have h2 := h.2
  omega

theorem runLevels_length {useMap : Bool} {env : Env} :
    ∀ fuel lodLevel current s, (runLevels useMap env fuel lodLevel current s).1.length ≤ fuel := by
  intro fuel
  induction fuel with
  | zero => intro lodLevel current s; exact le_refl _
  | succ n ih =>
    intro lodLevel current s
    rw [runLevels_succ]
    by_cases hlen : current.length < 2
    · rw [if_pos hlen]; simp
    · rw [if_neg hlen]
      dsimp only
      split
      · simp
      · simpa using Nat.succ_le_succ (ih _ _ _)

theorem runLevels_roots {useMap : Bool} {env : Env} (hsplit : SplitNonempty env) :
    ∀ fuel lodLevel current s, StoreIds s →
      (∀ i ∈ current, ∃ m ∈ s.allMeshlets, m.id = i ∧ m.parentBounds = none) →
      (∃ m ∈ s.allMeshlets, m.parentBounds = none) →
      ∀ st, (runLevels useMap env fuel lodLevel current s).2 = Except.ok st →
        ∃ m ∈ st.allMeshlets, m.parentBounds = none := by
  intro fuel
  induction fuel with
  | zero =>
    intro lodLevel current s _ _ hex st hst
    cases hst
    exact hex
  | succ n ih =>
    intro lodLevel current s hids hcur hex st hst
    rw [runLevels_succ] at hst
    by_cases hlen : current.length < 2
    · rw [if_pos hlen] at hst
      cases hst
      exact hex
    · rw [if_neg hlen] at hst
      dsimp only at hst
      have hbound : ∀ G ∈ levelPartitioned useMap env s current, ∀ i ∈ G,
          i < s.nextMeshletId := by
        intro G hG i hi
        obtain ⟨m, hm, hmid, _⟩ := hcur i (levelPartitioned_sub G hG i hi)
        rw [← hmid]
        exact id_lt_nextId hids hm
      obtain ⟨hle, hids', hfresh, hnil⟩ := processGroups_fresh_roots env hsplit lodLevel
        ((levelPartitioned useMap env s current).length == 1)
        (levelPartitioned useMap env s current) s hids hbound
      split at hst
      · cases hst
      · refine ih (lodLevel + 1) _ _ hids' ?_ ?_ st hst
        · intro i hi
          obtain ⟨_, _, m, hm, hmid, hmpb, _⟩ := hfresh i hi
          exact ⟨m, hm, hmid, hmpb⟩
        · by_cases hflat : ((processGroups env lodLevel
              ((levelPartitioned useMap env s current).length == 1)
              (levelPartitioned useMap env s current) s).2.flatMap
                (fun gl => gl.newIds)) = []
          · rw [hnil hflat]
            exact hex
          · obtain ⟨i, hi⟩ := List.exists_mem_of_ne_nil _ hflat
            obtain ⟨_, _, m, hm, _, hmpb, _⟩ := hfresh i hi
            exact ⟨m, hm, hmpb⟩

theorem bottom_fresh (env : Env) :
    (∀ i ∈ (splitIntoMeshlets env 0 env.meshIndices (ExtQ.fin 0) []
        (env.calcBounds env.meshIndices)
        { allMeshlets := [], nextMeshletId := 0, warnings := [] }).2,
      ∃ m ∈ (splitIntoMeshlets env 0 env.meshIndices (ExtQ.fin 0) []
        (env.calcBounds env.meshIndices)
        { allMeshlets := [], nextMeshletId := 0, warnings := [] }).1.allMeshlets,
        m.id = i ∧ m.parentBounds = none ∧ m.parentError = ExtQ.inf) ∧
    (SplitNonempty env →
      ∃ m ∈ (splitIntoMeshlets env 0 env.meshIndices (ExtQ.fin 0) []
        (env.calcBounds env.meshIndices)
        { allMeshlets := [], nextMeshletId := 0, warnings := [] }).1.allMeshlets,
        m.parentBounds = none) := by
  unfold splitIntoMeshlets
  rw [splitIntoMeshletsAux_eq]
  dsimp only
  constructor
  · intro i hi
    have hmem : i ∈ (wipsFrom 0 (ExtQ.fin 0) [] (env.calcBounds env.meshIndices) 0
        (env.split env.meshIndices)).map (fun m => m.id) := by
      rw [wipsFrom_map_id]
      exact hi
    obtain ⟨w, hw, hwid⟩ := List.mem_map.mp hmem
    exact ⟨w, by simpa using hw, hwid, (mem_wipsFrom hw).2.2.1, (mem_wipsFrom hw).2.1⟩
  · intro hsplit
    have hne : wipsFrom 0 (ExtQ.fin 0) [] (env.calcBounds env.meshIndices) 0
        (env.split env.meshIndices) ≠ [] := by
      intro hcon
      have := congrArg List.length hcon
      rw [wipsFrom_length] at this
      exact hsplit _ (List.length_eq_zero.mp this)
    obtain ⟨w, hw⟩ := List.exists_mem_of_ne_nil _ hne
    exact ⟨w, by simpa using hw, (mem_wipsFrom hw).2.2.1⟩

/-! ## C2: termination, the error condition, and the root count -/

/-- **C2** (amended). Under the clusterer contract `SplitNonempty`:
`createNaniteMeshlets` always terminates, executing at most `MAX_LODS = 20`
coarsening iterations; when it returns normally the returned meshlet set
contains **at least one** root (`MeshletWIP` with `parentBounds` undefined) —
but not necessarily exactly one, see the counterexample — and it raises the
construction error (reporting level 0 and the vertex count) exactly when the
level-1 iteration runs (at least two bottom meshlets) and creates no
meshlets. -/
theorem c2_terminates_and_roots (useMap : Bool) (env : Env) (initId : ℕ)
    (hsplit : SplitNonempty env) :
    (runNanite useMap env initId).levels.length ≤ MAX_LODS ∧
    (∀ st, (runNanite useMap env initId).result = Except.ok st →
      ∃ m ∈ st.allMeshlets, isWIP_Root m) ∧
    (∀ e, (runNanite useMap env initId).result = Except.error e →
      e = { lodLevel := 0, vertexCount := env.vertexCount } ∧
      2 ≤ (runNanite useMap env initId).bottomIds.length ∧
      ∃ lv ∈ (runNanite useMap env initId).levels, lv.lodLevel = 1 ∧
        lv.groupLogs.flatMap (fun gl => gl.newIds) = []) := by
  refine ⟨runLevels_length MAX_LODS 1 _ _, ?_, ?_⟩
  · intro st hst
    refine runLevels_roots hsplit MAX_LODS 1 _ _ (bottom_storeIds env) ?_
      ((bottom_fresh env).2 hsplit) st hst
    intro i hi
    obtain ⟨m, hm, hmid, hmpb, _⟩ := (bottom_fresh env).1 i hi
    exact ⟨m, hm, hmid, hmpb⟩
  · intro e he
    have h' : (runLevels useMap env (19 + 1) 1 (runNanite useMap env initId).bottomIds
        (runNanite useMap env initId).bottomState).2 = Except.error e := he
    obtain ⟨h2, _, hee⟩ := (runLevels_error_char _ _ _ _).mp h'
    exact ⟨hee, h2, runLevels_error_logs _ _ _ _ h'⟩

set_option maxHeartbeats 2000000 in
set_option maxRecDepth 8000 in
set_option maxHeartbeats 2000000 in
set_option maxRecDepth 8000 in
/-- Concrete evaluation: the fixture `envC2` run returns normally. -/
theorem envC2_eval_ok :
    (runNanite true envC2 0).result = Except.ok (runNanite true envC2 0).finalState := by
  norm_num [runNanite, runLevels, processGroups, processGroup, splitIntoMeshlets,
    splitIntoMeshletsAux, createMeshletWip, setParentOfGroup, mergeMeshlets, findMeshlet,
    jsMathMax, ExtQ.maxE, ExtQ.addQ, getTriangleCount, calculateTargetIndexCount,
    SIMPLIFICATION_FACTOR_REQ, VERTS_IN_TRIANGLE, MAX_LODS, GROUP_SIZE, DECIMATE_FACTOR,
    envC2, chunk3, sphere0, RunResult.finalState, RunResult.snapshots, findBoundaryEdges,
    listAllEdges, normEdge, List.range_succ, List.filterMap, List.flatMap]

/-- **C2** (counterexample to "exactly one root"). The fixture `envC2` run
returns normally while its final meshlet list contains three roots: the two
children of the level-1 group that stalled, plus the last created meshlet. -/
theorem c2_three_roots_counterexample :
    (runNanite true envC2 0).result = Except.ok (runNanite true envC2 0).finalState ∧
    (runNanite true envC2 0).finalState.allMeshlets.countP
      (fun m => decide (isWIP_Root m)) = 3 := by
  refine ⟨envC2_eval_ok, ?_⟩
  norm_num [runNanite, runLevels, processGroups, processGroup, splitIntoMeshlets,
    splitIntoMeshletsAux, createMeshletWip, setParentOfGroup, mergeMeshlets, findMeshlet,
    jsMathMax, ExtQ.maxE, ExtQ.addQ, getTriangleCount, calculateTargetIndexCount,
    SIMPLIFICATION_FACTOR_REQ, VERTS_IN_TRIANGLE, MAX_LODS, GROUP_SIZE, DECIMATE_FACTOR,
    envC2, chunk3, sphere0, RunResult.finalState, RunResult.snapshots, findBoundaryEdges,
    listAllEdges, normEdge, isWIP_Root, List.range_succ, List.filterMap, List.flatMap,
    List.countP, List.countP.go] <;>
  decide

/-- Witness for C2: the amended theorem applied to `envC2` (which satisfies
the clusterer contract), plus the concrete facts discharging its
hypotheses. -/
theorem c2_terminates_and_roots_witness :
    SplitNonempty envC2 ∧
    ((runNanite true envC2 0).levels.length ≤ MAX_LODS ∧
     (∀ st, (runNanite true envC2 0).result = Except.ok st →
       ∃ m ∈ st.allMeshlets, isWIP_Root m) ∧
     (∀ e, (runNanite true envC2 0).result = Except.error e →
       e = { lodLevel := 0, vertexCount := envC2.vertexCount } ∧
       2 ≤ (runNanite true envC2 0).bottomIds.length ∧
       ∃ lv ∈ (runNanite true envC2 0).levels, lv.lodLevel = 1 ∧
         lv.groupLogs.flatMap (fun gl => gl.newIds) = [])) := by
  have hsplit : SplitNonempty envC2 := by
    unfold SplitNonempty envC2
    intro idxs
    dsimp only
    split
    · next h15 =>
      have hlen : idxs.length = 15 := by simpa using h15
      cases idxs with
      | nil => simp at hlen
      | cons a t1 =>
        cases t1 with
        | nil => simp at hlen
        | cons b t2 =>
          cases t2 with
          | nil => simp at hlen
          | cons c rest => simp [chunk3]
    · simp
  exact ⟨hsplit, c2_terminates_and_roots true envC2 0 hsplit⟩


/-! ## Lookup lemmas: how a single group transforms the store -/

theorem find?_id_map {f : MeshletWIP → MeshletWIP} (hf : ∀ m, (f m).id = m.id) (i : ℕ) :
    ∀ store : List MeshletWIP,
      List.find? (fun m => m.id == i) (store.map f) =
        (List.find? (fun m => m.id == i) store).map f := by
  intro store
  induction store with
  | nil => rfl
  | cons x rest ih =>
    rw [List.map_cons, List.find?_cons, List.find?_cons]
    have hfx : ((f x).id == i) = (x.id == i) := by rw [hf x]
    rw [hfx]
    cases hx : (x.id == i) with
    | true => rfl
    | false => exact ih

theorem findMeshlet_setParent (g : List ℕ) (pe : ExtQ) (pb : Option BoundingSphere)
    (store : List MeshletWIP) (i : ℕ) :
    findMeshlet (setParentOfGroup g pe pb store) i =
      (findMeshlet store i).map (fun m =>
        if g.contains m.id then { m with parentError := pe, parentBounds := pb } else m) := by
  unfold findMeshlet setParentOfGroup
  exact find?_id_map (fun m => by split <;> rfl) i store

theorem findMeshlet_append {store ext : List MeshletWIP} {i : ℕ} {m : MeshletWIP}
    (h : findMeshlet store i = some m) : findMeshlet (store ++ ext) i = some m := by
  unfold findMeshlet at *
  rw [List.find?_append, h]
  rfl

theorem processGroup_lookup_assigned {env : Env} {s : BuildState} {g : List ℕ}
    (lodLevel : ℕ) (singleGroup : Bool) (hc : ¬ groupStalls env s g)
    {i : ℕ} {m : MeshletWIP} (hig : i ∈ g) (hm : findMeshlet s.allMeshlets i = some m) :
    findMeshlet (processGroup env lodLevel singleGroup s g).1.allMeshlets i =
      some (assignedWip env s g m) := by
  rw [processGroup_survive lodLevel singleGroup hc]
  obtain ⟨L, hL⟩ := groupCreated_char env lodLevel singleGroup s g
  unfold groupSurviveState
  rw [hL]
  dsimp only
  rw [findMeshlet_setParent, findMeshlet_append hm]
  have hmid : m.id = i := (findMeshlet_mem hm).2
  rw [Option.map_some']
  rw [if_pos (by rw [hmid]; simpa using hig)]
  rfl

theorem processGroup_lookup_other {env : Env} {s : BuildState} {g : List ℕ}
    (lodLevel : ℕ) (singleGroup : Bool)
    {i : ℕ} {m : MeshletWIP} (hig : i ∉ g) (hm : findMeshlet s.allMeshlets i = some m) :
    findMeshlet (processGroup env lodLevel singleGroup s g).1.allMeshlets i = some m := by
  by_cases hc : groupStalls env s g
  · rw [processGroup_stall lodLevel singleGroup hc]
    exact hm
  · rw [processGroup_survive lodLevel singleGroup hc]
    obtain ⟨L, hL⟩ := groupCreated_char env lodLevel singleGroup s g
    unfold groupSurviveState
    rw [hL]
    dsimp only
    rw [findMeshlet_setParent, findMeshlet_append hm]
    have hmid : m.id = i := (findMeshlet_mem hm).2
    rw [Option.map_some']
    rw [if_neg (by rw [hmid]; simpa using hig)]

theorem processGroups_lookup_other {env : Env} {lodLevel : ℕ} {singleGroup : Bool} :
    ∀ {Gs : List (List ℕ)} {s : BuildState} {i : ℕ} {m : MeshletWIP},
      findMeshlet s.allMeshlets i = some m → (∀ G ∈ Gs, i ∉ G) →
      findMeshlet (processGroups env lodLevel singleGroup Gs s).1.allMeshlets i = some m := by
  intro Gs
  induction Gs with
  | nil => intro s i m hm _; exact hm
  | cons g Gs ih =>
    intro s i m hm hnotin
    rw [processGroups_cons]
    exact ih (processGroup_lookup_other lodLevel singleGroup
        (hnotin g (List.mem_cons_self g Gs)) hm)
      (fun G hG => hnotin G (List.mem_cons_of_mem g hG))

theorem processGroups_newIds_lb (env : Env) (lodLevel : ℕ) (singleGroup : Bool) :
    ∀ (Gs : List (List ℕ)) (s : BuildState),
      (s.nextMeshletId ≤ (processGroups env lodLevel singleGroup Gs s).1.nextMeshletId) ∧
      (∀ i ∈ (processGroups env lodLevel singleGroup Gs s).2.flatMap (fun gl => gl.newIds),
        s.nextMeshletId ≤ i) := by
  intro Gs
  induction Gs with
  | nil => intro s; exact ⟨le_refl _, by simp [processGroups]⟩
  | cons g Gs ih =>
    intro s
    rw [processGroups_cons]
    have hle1 := processGroup_nextId_le env lodLevel singleGroup s g
    obtain ⟨ihle, ihlb⟩ := ih (processGroup env lodLevel singleGroup s g).1
    refine ⟨le_trans hle1 ihle, ?_⟩
    intro i hi
    rw [List.flatMap_cons, List.mem_append] at hi
    rcases hi with hhead | htail
    · -- the head group's new ids start at s.nextMeshletId
      by_cases hc : groupStalls env s g
      · rw [processGroup_stall lodLevel singleGroup hc] at hhead
        cases hhead
      · rw [processGroup_survive lodLevel singleGroup hc] at hhead
        dsimp only at hhead
        obtain ⟨L, hL⟩ := groupCreated_char env lodLevel singleGroup s g
        have hNew := congrArg Prod.snd hL
        dsimp only at hNew
        rw [hNew, List.mem_range'_1] at hhead
        exact hhead.1
    · exact le_trans hle1 (ihlb i htail)


/-! ## Group disjointness and freshness bookkeeping -/

theorem levelPartitioned_flatten_nodup {useMap : Bool} {env : Env} {s : BuildState}
    {cur : List ℕ} (hpart : PartitionValid env) (hcur : cur.Nodup) :
    ((levelPartitioned useMap env s cur).flatten).Nodup := by
  unfold levelPartitioned
  split
  · rw [← List.filterMap_flatten]
    refine List.Nodup.filterMap ?_ (hpart _ _)
    intro a b c hca hcb
    obtain ⟨ha, rfl⟩ := List.getElem?_eq_some.mp hca
    obtain ⟨hb, hab⟩ := List.getElem?_eq_some.mp hcb
    exact (List.Nodup.getElem_inj_iff hcur).mp hab.symm
  · simpa using hcur

theorem processGroup_newIds_bounds (env : Env) (lodLevel : ℕ) (singleGroup : Bool)
    (s : BuildState) (g : List ℕ) :
    ∀ i ∈ (processGroup env lodLevel singleGroup s g).2.newIds,
      s.nextMeshletId ≤ i ∧ i < (processGroup env lodLevel singleGroup s g).1.nextMeshletId := by
  by_cases hc : groupStalls env s g
  · rw [processGroup_stall lodLevel singleGroup hc]
    simp
  · rw [processGroup_survive lodLevel singleGroup hc]
    dsimp only
    obtain ⟨L, hL⟩ := groupCreated_char env lodLevel singleGroup s g
    have hSt := congrArg Prod.fst hL
    have hNew := congrArg Prod.snd hL
    dsimp only at hSt hNew
    intro i hi
    rw [hNew, List.mem_range'_1] at hi
    unfold groupSurviveState
    rw [hSt]
    dsimp only
    omega

theorem processGroup_newIds_nodup (env : Env) (lodLevel : ℕ) (singleGroup : Bool)
    (s : BuildState) (g : List ℕ) :
    (processGroup env lodLevel singleGroup s g).2.newIds.Nodup := by
  by_cases hc : groupStalls env s g
  · rw [processGroup_stall lodLevel singleGroup hc]
    simp
  · rw [processGroup_survive lodLevel singleGroup hc]
    dsimp only
    obtain ⟨L, hL⟩ := groupCreated_char env lodLevel singleGroup s g
    have hNew := congrArg Prod.snd hL
    dsimp only at hNew
    rw [hNew]
    exact List.nodup_range' _ _

theorem processGroups_newIds_nodup (env : Env) (lodLevel : ℕ) (singleGroup : Bool) :
    ∀ (Gs : List (List ℕ)) (s : BuildState),
      ((processGroups env lodLevel singleGroup Gs s).2.flatMap (fun gl => gl.newIds)).Nodup := by
  intro Gs
  induction Gs with
  | nil => intro s; simp [processGroups]
  | cons g Gs ih =>
    intro s
    rw [processGroups_cons, List.flatMap_cons]
    refine List.Nodup.append (processGroup_newIds_nodup env lodLevel singleGroup s g) (ih _) ?_
    rw [List.disjoint_left]
    intro a ha hcon
    have h1 := (processGroup_newIds_bounds env lodLevel singleGroup s g a ha).2
    have h2 := (processGroups_newIds_lb env lodLevel singleGroup Gs
      (processGroup env lodLevel singleGroup s g).1).2 a hcon
    omega

theorem processGroup_groupIds (env : Env) (lodLevel : ℕ) (singleGroup : Bool)
    (s : BuildState) (g : List ℕ) :
    (processGroup env lodLevel singleGroup s g).2.groupIds = g := by
  by_cases hc : groupStalls env s g
  · rw [processGroup_stall lodLevel singleGroup hc]
  · rw [processGroup_survive lodLevel singleGroup hc]

/-! ## The per-group story: assignment and preservation within one level -/

theorem processGroups_story (env : Env) (lodLevel : ℕ) (singleGroup : Bool) :
    ∀ (Gs : List (List ℕ)) (s : BuildState), (Gs.flatten).Nodup →
      (∀ i ∈ Gs.flatten, ∃ m, findMeshlet s.allMeshlets i = some m ∧
        m.parentBounds = none ∧ m.parentError = ExtQ.inf) →
      ∀ gl ∈ (processGroups env lodLevel singleGroup Gs s).2, ∀ i ∈ gl.groupIds,
        ∃ m, findMeshlet gl.statePre.allMeshlets i = some m ∧
          m.parentBounds = none ∧ m.parentError = ExtQ.inf ∧
          findMeshlet gl.state.allMeshlets i =
            some (if gl.stalled then m else assignedWip env gl.statePre gl.groupIds m) ∧
          findMeshlet (processGroups env lodLevel singleGroup Gs s).1.allMeshlets i =
            some (if gl.stalled then m else assignedWip env gl.statePre gl.groupIds m) := by
  intro Gs
  induction Gs with
  | nil => intro s _ _ gl hgl; cases hgl
  | cons g Gs ih =>
    intro s hnodup hroots gl hgl i hi
    have hflat_sub : ∀ j ∈ g, j ∈ (g :: Gs).flatten := by
      intro j hj
      rw [List.flatten_cons, List.mem_append]
      exact Or.inl hj
    have hdisj : ∀ j ∈ g, ∀ G ∈ Gs, j ∉ G := by
      intro j hj G hG hcon
      have h1 := List.nodup_append.mp (by simpa [List.flatten_cons] using hnodup)
      exact h1.2.2 hj (List.mem_flatten.mpr ⟨G, hG, hcon⟩)
    rw [processGroups_cons] at hgl ⊢
    rcases List.mem_cons.mp hgl with rfl | hmem
    · -- gl is the head group's log
      rw [processGroup_groupIds] at hi
      by_cases hc : groupStalls env s g
      · obtain ⟨m, hm, hmpb, hmpe⟩ := hroots i (hflat_sub i hi)
        rw [processGroup_stall lodLevel singleGroup hc]
        dsimp only
        refine ⟨m, hm, hmpb, hmpe, by simpa using hm, ?_⟩
        simp only [if_pos rfl]
        exact processGroups_lookup_other (by simpa using hm) (fun G hG => hdisj i hi G hG)
      · obtain ⟨m, hm, hmpb, hmpe⟩ := hroots i (hflat_sub i hi)
        have hassigned := processGroup_lookup_assigned lodLevel singleGroup hc hi hm
        rw [processGroup_survive lodLevel singleGroup hc] at hassigned ⊢
        dsimp only at hassigned ⊢
        refine ⟨m, hm, hmpb, hmpe, by simpa using hassigned, ?_⟩
        have hne : (false = true) = False := by simp
        rw [if_neg (by simp)]
        exact processGroups_lookup_other hassigned (fun G hG => hdisj i hi G hG)
    · -- gl belongs to a later group
      have hnodup' : (Gs.flatten).Nodup := by
        have h1 := List.nodup_append.mp (by simpa [List.flatten_cons] using hnodup)
        exact h1.2.1
      have hroots' : ∀ j ∈ Gs.flatten, ∃ m,
          findMeshlet (processGroup env lodLevel singleGroup s g).1.allMeshlets j = some m ∧
          m.parentBounds = none ∧ m.parentError = ExtQ.inf := by
        intro j hj
        obtain ⟨m, hm, hmpb, hmpe⟩ := hroots j (by
          rw [List.flatten_cons, List.mem_append]
          exact Or.inr hj)
        refine ⟨m, ?_, hmpb, hmpe⟩
        refine processGroup_lookup_other lodLevel singleGroup ?_ hm
        intro hcon
        obtain ⟨G, hG, hjg⟩ := List.mem_flatten.mp hj
        exact hdisj j hcon G hG hjg
      exact ih _ hnodup' hroots' gl hmem i hi


/-! ## Cross-level preservation down to the final state -/

theorem lastGroupState_single (lv : LevelLog) (s : BuildState) :
    lastGroupState [lv] s = ((lv.groupLogs).map (fun g => g.state)).getLastD s := by
  unfold lastGroupState
  simp

theorem runLevelsFinal_cons {lv : LevelLog}
    {r : List LevelLog × Except SimplificationErrorData BuildState} {s spg : BuildState}
    (h : ((lv.groupLogs).map (fun g => g.state)).getLastD s = spg) :
    runLevelsFinal (lv :: r.1, r.2) s = runLevelsFinal r spg := by
  unfold runLevelsFinal
  cases hr : r.2 with
  | ok st => rfl
  | error e =>
    dsimp only
    unfold lastGroupState
    rw [List.flatMap_cons, List.map_append, getLastD_append, h]

theorem storeIds_processGroups (env : Env) (lodLevel : ℕ) (singleGroup : Bool)
    (Gs : List (List ℕ)) (s : BuildState) (h : StoreIds s) :
    StoreIds (processGroups env lodLevel singleGroup Gs s).1 :=
  (processGroups_pres StoreIds
    (fun s g hP => processGroup_pres_storeIds env lodLevel singleGroup s g hP) Gs s h).1

theorem runLevels_lookup_final {useMap : Bool} {env : Env} :
    ∀ fuel lodLevel current s i m, StoreIds s →
      findMeshlet s.allMeshlets i = some m → i ∉ current →
      findMeshlet (runLevelsFinal (runLevels useMap env fuel lodLevel current s) s).allMeshlets i
        = some m := by
  intro fuel
  induction fuel with
  | zero => intro lodLevel current s i m _ hm _; exact hm
  | succ n ih =>
    intro lodLevel current s i m hids hm hicur
    rw [runLevels_succ]
    by_cases hlen : current.length < 2
    · rw [if_pos hlen]
      exact hm
    · rw [if_neg hlen]
      dsimp only
      have hnotin : ∀ G ∈ levelPartitioned useMap env s current, i ∉ G :=
        fun G hG hcon => hicur (levelPartitioned_sub G hG i hcon)
      have hm1 := @processGroups_lookup_other env lodLevel
        ((levelPartitioned useMap env s current).length == 1) _ _ _ _ hm hnotin
      split
      · -- error branch: the final state is the state after this level's groups
        show findMeshlet (runLevelsFinal (_, Except.error _) s).allMeshlets i = some m
        unfold runLevelsFinal
        dsimp only
        rw [lastGroupState_single]
        dsimp only
        rw [← processGroups_last]
        exact hm1
      · rw [runLevelsFinal_cons (processGroups_last env lodLevel ((levelPartitioned useMap env s current).length == 1) (levelPartitioned useMap env s current) s).symm]
        have hids1 := storeIds_processGroups env lodLevel ((levelPartitioned useMap env s current).length == 1) (levelPartitioned useMap env s current) s hids
        have hilt : i < s.nextMeshletId := by
          obtain ⟨hmem, hmid⟩ := findMeshlet_mem hm
          rw [← hmid]
          exact id_lt_nextId hids hmem
        refine ih _ _ _ i m hids1 hm1 ?_
        intro hcon
        have := (processGroups_newIds_lb env lodLevel ((levelPartitioned useMap env s current).length == 1) (levelPartitioned useMap env s current) s).2 i hcon
        omega

theorem processGroups_groupIds_mem (env : Env) (lodLevel : ℕ) (singleGroup : Bool) :
    ∀ (Gs : List (List ℕ)) (s : BuildState),
      ∀ gl ∈ (processGroups env lodLevel singleGroup Gs s).2,
        ∃ G ∈ Gs, gl.groupIds = G := by
  intro Gs
  induction Gs with
  | nil => intro s gl hgl; cases hgl
  | cons g Gs ih =>
    intro s gl hgl
    rw [processGroups_cons] at hgl
    rcases List.mem_cons.mp hgl with rfl | hmem
    · exact ⟨g, List.mem_cons_self g Gs, processGroup_groupIds env lodLevel singleGroup s g⟩
    · obtain ⟨G, hG, hgi⟩ := ih _ gl hmem
      exact ⟨G, List.mem_cons_of_mem g hG, hgi⟩

/-! ## The full-run story: every group's assignment, down to the final state -/

theorem runLevels_story {useMap : Bool} {env : Env} (hpart : PartitionValid env)
    (hsplit : SplitNonempty env) :
    ∀ fuel lodLevel current s, StoreIds s → current.Nodup →
      (∀ i ∈ current, ∃ m ∈ s.allMeshlets,
        m.id = i ∧ m.parentBounds = none ∧ m.parentError = ExtQ.inf) →
      ∀ lv ∈ (runLevels useMap env fuel lodLevel current s).1, ∀ gl ∈ lv.groupLogs,
        ∀ i ∈ gl.groupIds,
        ∃ m, findMeshlet gl.statePre.allMeshlets i = some m ∧
          m.parentBounds = none ∧ m.parentError = ExtQ.inf ∧
          findMeshlet gl.state.allMeshlets i =
            some (if gl.stalled then m else assignedWip env gl.statePre gl.groupIds m) ∧
          findMeshlet
              (runLevelsFinal (runLevels useMap env fuel lodLevel current s) s).allMeshlets i =
            some (if gl.stalled then m else assignedWip env gl.statePre gl.groupIds m) := by
  intro fuel
  induction fuel with
  | zero => intro lodLevel current s _ _ _ lv hlv; cases hlv
  | succ n ih =>
    intro lodLevel current s hids hnodup hroots lv hlv gl hgl i hi
    rw [runLevels_succ] at hlv ⊢
    by_cases hlen : current.length < 2
    · rw [if_pos hlen] at hlv
      cases hlv
    · rw [if_neg hlen] at hlv ⊢
      dsimp only at hlv ⊢
      have hflatnodup := @levelPartitioned_flatten_nodup useMap env s current hpart hnodup
      have hflatroots : ∀ j ∈ (levelPartitioned useMap env s current).flatten,
          ∃ m, findMeshlet s.allMeshlets j = some m ∧
            m.parentBounds = none ∧ m.parentError = ExtQ.inf := by
        intro j hj
        obtain ⟨G, hG, hjG⟩ := List.mem_flatten.mp hj
        obtain ⟨m, hmem, hmid, hmpb, hmpe⟩ := hroots j (levelPartitioned_sub G hG j hjG)
        refine ⟨m, ?_, hmpb, hmpe⟩
        rw [← hmid]
        exact findMeshlet_eq_of_mem (storeIds_nodup hids) hmem
      have hstory := processGroups_story env lodLevel
        ((levelPartitioned useMap env s current).length == 1)
        (levelPartitioned useMap env s current) s hflatnodup hflatroots
      have hgbound : ∀ G ∈ levelPartitioned useMap env s current, ∀ j ∈ G,
          j < s.nextMeshletId := by
        intro G hG j hj
        obtain ⟨m, hmem, hmid, _, _⟩ := hroots j (levelPartitioned_sub G hG j hj)
        rw [← hmid]
        exact id_lt_nextId hids hmem
      split at hlv
      next hcond =>
        -- error branch: logs = [lv₀]
        rw [if_pos hcond]
        rcases List.mem_singleton.mp hlv with rfl
        obtain ⟨m, h1, h2, h2e, h3, h4⟩ := hstory gl hgl i hi
        refine ⟨m, h1, h2, h2e, h3, ?_⟩
        show findMeshlet (runLevelsFinal (_, Except.error _) s).allMeshlets i = _
        unfold runLevelsFinal
        dsimp only
        rw [lastGroupState_single]
        dsimp only
        rw [← processGroups_last]
        exact h4
      next hcond =>
        rw [if_neg hcond]
        rcases List.mem_cons.mp hlv with rfl | hmem
        · -- this level's log
          obtain ⟨m, h1, h2, h2e, h3, h4⟩ := hstory gl hgl i hi
          refine ⟨m, h1, h2, h2e, h3, ?_⟩
          rw [runLevelsFinal_cons (processGroups_last env lodLevel ((levelPartitioned useMap env s current).length == 1) (levelPartitioned useMap env s current) s).symm]
          have hids1 := storeIds_processGroups env lodLevel ((levelPartitioned useMap env s current).length == 1) (levelPartitioned useMap env s current) s hids
          refine runLevels_lookup_final _ _ _ _ i _ hids1 h4 ?_
          intro hcon
          have hjcur : i ∈ (levelPartitioned useMap env s current).flatten := by
            obtain ⟨G, hG, hgi⟩ := (by
              -- gl ∈ pg.2 comes from some group G of the level; its ids are the group
              exact processGroups_groupIds_mem env lodLevel _ _ s gl hgl)
            have hiG := hi
            rw [hgi] at hiG
            exact List.mem_flatten.mpr ⟨G, hG, hiG⟩
          have hicur : i < s.nextMeshletId := by
            obtain ⟨G, hG, hgmem⟩ := List.mem_flatten.mp hjcur
            exact hgbound G hG i hgmem
          have := (processGroups_newIds_lb env lodLevel ((levelPartitioned useMap env s current).length == 1) (levelPartitioned useMap env s current) s).2 i hcon
          omega
        · -- a later level's log
          have hids1 := storeIds_processGroups env lodLevel ((levelPartitioned useMap env s current).length == 1) (levelPartitioned useMap env s current) s hids
          have hnodup1 := processGroups_newIds_nodup env lodLevel
            ((levelPartitioned useMap env s current).length == 1)
            (levelPartitioned useMap env s current) s
          have hroots1 := (processGroups_fresh_roots env hsplit lodLevel
            ((levelPartitioned useMap env s current).length == 1)
            (levelPartitioned useMap env s current) s hids hgbound).2.2.1
          obtain ⟨m, h1, h2, h2e, h3, h4⟩ := ih (lodLevel + 1) _ _ hids1 hnodup1
            (fun j hj => (hroots1 j hj).2.2) lv hmem gl hgl i hi
          refine ⟨m, h1, h2, h2e, h3, ?_⟩
          rw [runLevelsFinal_cons (processGroups_last env lodLevel ((levelPartitioned useMap env s current).length == 1) (levelPartitioned useMap env s current) s).symm]
          exact h4



/-! ## Glue: the run-level story specialized to `runNanite` -/

theorem getLast_cons_getLastD {α : Type} (a : α) (l : List α) (h : a :: l ≠ []) :
    (a :: l).getLast h = l.getLastD a := by
  induction l generalizing a with
  | nil => rfl
  | cons b l ih =>
    rw [List.getLast_cons (List.cons_ne_nil b l), ih b (List.cons_ne_nil b l),
      List.getLastD_cons]

theorem runNanite_finalState_eq (useMap : Bool) (env : Env) (initId : ℕ) :
    (runNanite useMap env initId).finalState =
      runLevelsFinal
        (runLevels useMap env MAX_LODS 1 (runNanite useMap env initId).bottomIds
          (runNanite useMap env initId).bottomState)
        (runNanite useMap env initId).bottomState := by
  unfold RunResult.finalState RunResult.snapshots
  rw [getLast_cons_getLastD]
  unfold runLevelsFinal
  cases hr : (runLevels useMap env MAX_LODS 1 (runNanite useMap env initId).bottomIds
      (runNanite useMap env initId).bottomState).2 with
  | ok st =>
    dsimp only
    rw [runLevels_ok_state MAX_LODS 1 _ _ st hr]
    rfl
  | error e =>
    rfl

theorem bottomIds_nodup (useMap : Bool) (env : Env) (initId : ℕ) :
    (runNanite useMap env initId).bottomIds.Nodup := by
  show (splitIntoMeshlets env 0 env.meshIndices (ExtQ.fin 0) []
      (env.calcBounds env.meshIndices)
      { allMeshlets := [], nextMeshletId := 0, warnings := [] }).2.Nodup
  unfold splitIntoMeshlets
  rw [splitIntoMeshletsAux_eq]
  exact List.nodup_range' _ _

theorem runNanite_story (useMap : Bool) (env : Env) (initId : ℕ)
    (hpart : PartitionValid env) (hsplit : SplitNonempty env) :
    ∀ lv ∈ (runNanite useMap env initId).levels, ∀ gl ∈ lv.groupLogs, ∀ i ∈ gl.groupIds,
      ∃ m, findMeshlet gl.statePre.allMeshlets i = some m ∧
        m.parentBounds = none ∧ m.parentError = ExtQ.inf ∧
        findMeshlet gl.state.allMeshlets i =
          some (if gl.stalled then m else assignedWip env gl.statePre gl.groupIds m) ∧
        findMeshlet (runNanite useMap env initId).finalState.allMeshlets i =
          some (if gl.stalled then m else assignedWip env gl.statePre gl.groupIds m) := by
  intro lv hlv gl hgl i hi
  have hbotroots : ∀ j ∈ (runNanite useMap env initId).bottomIds,
      ∃ m ∈ (runNanite useMap env initId).bottomState.allMeshlets,
        m.id = j ∧ m.parentBounds = none ∧ m.parentError = ExtQ.inf :=
    (bottom_fresh env).1
  obtain ⟨m, h1, h2, h2e, h3, h4⟩ := runLevels_story hpart hsplit MAX_LODS 1
    (runNanite useMap env initId).bottomIds (runNanite useMap env initId).bottomState
    (bottom_storeIds env) (bottomIds_nodup useMap env initId) hbotroots lv hlv gl hgl i hi
  refine ⟨m, h1, h2, h2e, h3, ?_⟩
  rw [runNanite_finalState_eq]
  exact h4

/-! ## Per-log shape lemmas -/

theorem groupLog_shape (env : Env) (lodLevel : ℕ) (singleGroup : Bool) (s : BuildState)
    (g : List ℕ) :
    (processGroup env lodLevel singleGroup s g).2.statePre = s ∧
    (processGroup env lodLevel singleGroup s g).2.groupIds = g ∧
    (processGroup env lodLevel singleGroup s g).2.trianglesBefore = groupTrianglesBefore s g ∧
    (processGroup env lodLevel singleGroup s g).2.trianglesAfter = groupTrianglesAfter env s g ∧
    ((processGroup env lodLevel singleGroup s g).2.stalled = true ↔ groupStalls env s g) ∧
    ((processGroup env lodLevel singleGroup s g).2.stalled = true →
      (processGroup env lodLevel singleGroup s g).2.newIds = [] ∧
      (processGroup env lodLevel singleGroup s g).2.state.allMeshlets = s.allMeshlets ∧
      (processGroup env lodLevel singleGroup s g).2.state.warnings =
        s.warnings ++ [(groupTrianglesBefore s g, groupTrianglesAfter env s g)] ∧
      (processGroup env lodLevel singleGroup s g).2.state.nextMeshletId = s.nextMeshletId) := by
  by_cases hc : groupStalls env s g
  · rw [processGroup_stall lodLevel singleGroup hc]
    exact ⟨rfl, rfl, rfl, rfl, by simpa using hc, fun _ => ⟨rfl, rfl, rfl, rfl⟩⟩
  · rw [processGroup_survive lodLevel singleGroup hc]
    refine ⟨rfl, rfl, rfl, rfl, by simpa using hc, fun hcon => ?_⟩
    simp at hcon

theorem processGroup_survive_newIds_ne (env : Env) (hsplit : SplitNonempty env)
    (lodLevel : ℕ) (singleGroup : Bool) (s : BuildState) (g : List ℕ)
    (hc : ¬ groupStalls env s g) :
    (processGroup env lodLevel singleGroup s g).2.newIds ≠ [] := by
  rw [processGroup_survive lodLevel singleGroup hc]
  dsimp only
  unfold groupCreated
  by_cases hsg : singleGroup
  · rw [if_pos hsg]
    simp
  · rw [if_neg hsg]
    unfold splitIntoMeshlets
    rw [splitIntoMeshletsAux_eq]
    dsimp only
    intro hcon
    have hlen := congrArg List.length hcon
    rw [List.length_range'] at hlen
    exact hsplit _ (List.length_eq_zero.mp hlen)

theorem processGroups_log_src (env : Env) (lodLevel : ℕ) (singleGroup : Bool) :
    ∀ (Gs : List (List ℕ)) (s : BuildState),
      ∀ gl ∈ (processGroups env lodLevel singleGroup Gs s).2,
        ∃ s' g', gl = (processGroup env lodLevel singleGroup s' g').2 := by
  intro Gs
  induction Gs with
  | nil => intro s gl hgl; cases hgl
  | cons g Gs ih =>
    intro s gl hgl
    rw [processGroups_cons] at hgl
    rcases List.mem_cons.mp hgl with rfl | hmem
    · exact ⟨s, g, rfl⟩
    · exact ih _ gl hmem

theorem processGroups_length (env : Env) (lodLevel : ℕ) (singleGroup : Bool) :
    ∀ (Gs : List (List ℕ)) (s : BuildState),
      (processGroups env lodLevel singleGroup Gs s).2.length = Gs.length := by
  intro Gs
  induction Gs with
  | nil => intro s; rfl
  | cons g Gs ih =>
    intro s
    rw [processGroups_cons]
    simp only [List.length_cons, ih]

theorem runLevels_log_src {useMap : Bool} {env : Env} :
    ∀ fuel lodLevel current s,
      ∀ lv ∈ (runLevels useMap env fuel lodLevel current s).1,
        (∀ gl ∈ lv.groupLogs, ∃ singleGroup s' g',
          gl = (processGroup env lv.lodLevel singleGroup s' g').2) ∧
        lv.groupLogs.length = lv.partitioned.length := by
  intro fuel
  induction fuel with
  | zero => intro lodLevel current s lv hlv; cases hlv
  | succ n ih =>
    intro lodLevel current s lv hlv
    rw [runLevels_succ] at hlv
    by_cases hlen : current.length < 2
    · rw [if_pos hlen] at hlv
      cases hlv
    · rw [if_neg hlen] at hlv
      dsimp only at hlv
      split at hlv
      · rcases List.mem_singleton.mp hlv with rfl
        exact ⟨fun gl hgl => by
          obtain ⟨s', g', hgl'⟩ := processGroups_log_src env lodLevel _ _ s gl hgl
          exact ⟨_, s', g', hgl'⟩,
          processGroups_length env lodLevel _ _ s⟩
      · rcases List.mem_cons.mp hlv with rfl | hmem
        · exact ⟨fun gl hgl => by
            obtain ⟨s', g', hgl'⟩ := processGroups_log_src env lodLevel _ _ s gl hgl
            exact ⟨_, s', g', hgl'⟩,
            processGroups_length env lodLevel _ _ s⟩
        · exact ih _ _ _ lv hmem


/-! ## C3: stall handling -/

/-- **C3.** Under the partitioner contract `PartitionValid` and the clusterer
contract `SplitNonempty`, for every merge group processed at any LOD level of
a `createNaniteMeshlets` run: (1) the group's recorded `stalled` flag holds
exactly when the simplification factor (triangles after / triangles before)
exceeds `SIMPLIFICATION_FACTOR_REQ = 0.97`; (2) a stalled group is abandoned:
no meshlet is created from it, the meshlet store is untouched, and a warning
pair with the before and after triangle counts is appended to the warning
log; moreover each of its children keeps `parentError = +Infinity` and
`parentBounds` undefined, and its record is still bit-identical (a permanent
root) in the final state of the whole construction; (3) the level keeps
processing the other groups (one group log per partitioned group); (4) a
stall by itself never aborts the construction: when the run does abort, it is
the level-1 iteration with *all* of its groups stalled. -/
theorem c3_stall_is_recoverable (useMap : Bool) (env : Env) (initId : ℕ)
    (hpart : PartitionValid env) (hsplit : SplitNonempty env) :
    (∀ lv ∈ (runNanite useMap env initId).levels, ∀ gl ∈ lv.groupLogs,
      (gl.stalled = true ↔
        SIMPLIFICATION_FACTOR_REQ < ((gl.trianglesAfter : ℚ) / (gl.trianglesBefore : ℚ))) ∧
      (gl.stalled = true →
        gl.newIds = [] ∧
        gl.state.allMeshlets = gl.statePre.allMeshlets ∧
        gl.state.warnings = gl.statePre.warnings ++ [(gl.trianglesBefore, gl.trianglesAfter)] ∧
        ∀ i ∈ gl.groupIds, ∃ m,
          findMeshlet gl.statePre.allMeshlets i = some m ∧
          m.parentBounds = none ∧ m.parentError = ExtQ.inf ∧
          findMeshlet (runNanite useMap env initId).finalState.allMeshlets i = some m)) ∧
    (∀ lv ∈ (runNanite useMap env initId).levels,
      lv.groupLogs.length = lv.partitioned.length) ∧
    (∀ e, (runNanite useMap env initId).result = Except.error e →
      ∃ lv ∈ (runNanite useMap env initId).levels, lv.lodLevel = 1 ∧
        ∀ gl ∈ lv.groupLogs, gl.stalled = true) := by
  refine ⟨?_, ?_, ?_⟩
  · intro lv hlv gl hgl
    obtain ⟨hsrc, _⟩ := runLevels_log_src MAX_LODS 1 _ _ lv hlv
    obtain ⟨sg, s', g', rfl⟩ := hsrc gl hgl
    obtain ⟨hpre, hgid, htb, hta, hstall, hdata⟩ := groupLog_shape env lv.lodLevel sg s' g'
    constructor
    · rw [hstall, htb, hta]
      unfold groupStalls
      exact Iff.rfl
    · intro hst
      obtain ⟨hnew, hstore, hwarn, _⟩ := hdata hst
      refine ⟨hnew, by rw [hstore, hpre], by rw [hwarn, hpre, htb, hta], ?_⟩
      intro i hi
      obtain ⟨m, h1, h2, h2e, _, h4⟩ :=
        runNanite_story useMap env initId hpart hsplit lv hlv _ hgl i hi
      refine ⟨m, h1, h2, h2e, ?_⟩
      rw [if_pos hst] at h4
      exact h4
  · intro lv hlv
    exact (runLevels_log_src MAX_LODS 1 _ _ lv hlv).2
  · intro e he
    have h' : (runLevels useMap env (19 + 1) 1 (runNanite useMap env initId).bottomIds
        (runNanite useMap env initId).bottomState).2 = Except.error e := he
    obtain ⟨lv, hlv, hlod1, hflat⟩ := runLevels_error_logs _ _ _ _ h'
    refine ⟨lv, hlv, hlod1, ?_⟩
    intro gl hgl
    have hnil : gl.newIds = [] := List.flatMap_eq_nil_iff.mp hflat gl hgl
    obtain ⟨hsrc, _⟩ := runLevels_log_src (19 + 1) 1 _ _ lv hlv
    obtain ⟨sg, s', g', rfl⟩ := hsrc gl hgl
    by_contra hcon
    have hns : ¬ groupStalls env s' g' := by
      intro hc
      exact hcon ((groupLog_shape env lv.lodLevel sg s' g').2.2.2.2.1.mpr hc)
    exact processGroup_survive_newIds_ne env hsplit lv.lodLevel sg s' g' hns hnil

/-- Witness for C3 at the fixture environment `envC2`, whose level-1 run has
one surviving and one stalled group. -/
theorem c3_stall_is_recoverable_witness :
    PartitionValid envC2 ∧ SplitNonempty envC2 ∧
    (∀ lv ∈ (runNanite true envC2 0).levels, ∀ gl ∈ lv.groupLogs,
      (gl.stalled = true ↔
        SIMPLIFICATION_FACTOR_REQ < ((gl.trianglesAfter : ℚ) / (gl.trianglesBefore : ℚ))) ∧
      (gl.stalled = true →
        gl.newIds = [] ∧
        gl.state.allMeshlets = gl.statePre.allMeshlets ∧
        gl.state.warnings = gl.statePre.warnings ++ [(gl.trianglesBefore, gl.trianglesAfter)] ∧
        ∀ i ∈ gl.groupIds, ∃ m,
          findMeshlet gl.statePre.allMeshlets i = some m ∧
          m.parentBounds = none ∧ m.parentError = ExtQ.inf ∧
          findMeshlet (runNanite true envC2 0).finalState.allMeshlets i = some m)) := by
  have hpart : PartitionValid envC2 := by
    intro adjacency nparts
    show ([[0, 1, 2], [3, 4]] : List (List ℕ)).flatten.Nodup
    decide
  have hsplit : SplitNonempty envC2 := by
    unfold SplitNonempty envC2
    intro idxs
    dsimp only
    split
    · next h15 =>
      have hlen : idxs.length = 15 := by simpa using h15
      cases idxs with
      | nil => simp at hlen
      | cons a t1 =>
        cases t1 with
        | nil => simp at hlen
        | cons b t2 =>
          cases t2 with
          | nil => simp at hlen
          | cons c rest => simp [chunk3]
    · simp
  exact ⟨hpart, hsplit, (c3_stall_is_recoverable true envC2 0 hpart hsplit).1⟩

/-! ## C4: the parent assignment of a surviving group -/

/-- **C4.** Under the partitioner and clusterer contracts, when a merge group
survives simplification: every child of the group, which was unassigned
before the group ran (`parentBounds = none`), is updated to exactly
`assignedWip`: `parentError := groupTotalError` (the simplifier error times
its scale, plus the maximum of the children's own `maxSiblingsError` — the
same value for every child of the group) and `parentBounds := groupBounds`
(the bounding sphere of the merged group, again shared), while every other
field — in particular `maxSiblingsError` and `sharedSiblingsBounds` — is
left unchanged; and the child's record is never modified again: it is still
exactly that assigned record in the final state of the whole construction
(assigned at most once, never overwritten). -/
theorem c4_parent_assignment (useMap : Bool) (env : Env) (initId : ℕ)
    (hpart : PartitionValid env) (hsplit : SplitNonempty env) :
    ∀ lv ∈ (runNanite useMap env initId).levels, ∀ gl ∈ lv.groupLogs,
      gl.stalled = false →
      ∀ i ∈ gl.groupIds, ∃ m,
        findMeshlet gl.statePre.allMeshlets i = some m ∧
        m.parentBounds = none ∧
        findMeshlet gl.state.allMeshlets i =
          some (assignedWip env gl.statePre gl.groupIds m) ∧
        findMeshlet (runNanite useMap env initId).finalState.allMeshlets i =
          some (assignedWip env gl.statePre gl.groupIds m) := by
  intro lv hlv gl hgl hsurv i hi
  obtain ⟨m, h1, h2, _, h3, h4⟩ := runNanite_story useMap env initId hpart hsplit lv hlv gl hgl i hi
  rw [hsurv] at h3 h4
  simp only [Bool.false_eq_true, if_false] at h3 h4
  exact ⟨m, h1, h2, h3, h4⟩

/-- Witness for C4 at the fixture environment `envC2`. -/
theorem c4_parent_assignment_witness :
    PartitionValid envC2 ∧ SplitNonempty envC2 ∧
    (∀ lv ∈ (runNanite true envC2 0).levels, ∀ gl ∈ lv.groupLogs,
      gl.stalled = false →
      ∀ i ∈ gl.groupIds, ∃ m,
        findMeshlet gl.statePre.allMeshlets i = some m ∧
        m.parentBounds = none ∧
        findMeshlet gl.state.allMeshlets i =
          some (assignedWip envC2 gl.statePre gl.groupIds m) ∧
        findMeshlet (runNanite true envC2 0).finalState.allMeshlets i =
          some (assignedWip envC2 gl.statePre gl.groupIds m)) := by
  have hpart : PartitionValid envC2 := by
    intro adjacency nparts
    show ([[0, 1, 2], [3, 4]] : List (List ℕ)).flatten.Nodup
    decide
  have hsplit : SplitNonempty envC2 := by
    unfold SplitNonempty envC2
    intro idxs
    dsimp only
    split
    · next h15 =>
      have hlen : idxs.length = 15 := by simpa using h15
      cases idxs with
      | nil => simp at hlen
      | cons a t1 =>
        cases t1 with
        | nil => simp at hlen
        | cons b t2 =>
          cases t2 with
          | nil => simp at hlen
          | cons c rest => simp [chunk3]
    · simp
  exact ⟨hpart, hsplit, c4_parent_assignment true envC2 0 hpart hsplit⟩



/-! ## Bottom-level meshlet count (claim C8) -/

theorem setParentOfGroup_countLod (g : List ℕ) (pe : ExtQ) (pb : Option BoundingSphere)
    (store : List MeshletWIP) :
    (setParentOfGroup g pe pb store).countP (fun m => m.lodLevel == BOTTOM_LEVEL_NODE) =
      store.countP (fun m => m.lodLevel == BOTTOM_LEVEL_NODE) := by
  unfold setParentOfGroup
  rw [List.countP_map]
  apply List.countP_congr
  intro m _
  by_cases hg : m.id ∈ g <;> simp [hg, Function.comp]

theorem countLod_wipsFrom_pos (lodLevel : ℕ) (hl : lodLevel ≠ 0) (e : ExtQ) (cf : List ℕ)
    (b : BoundingSphere) (i : ℕ) (L : List (List ℕ)) :
    (wipsFrom lodLevel e cf b i L).countP (fun m => m.lodLevel == BOTTOM_LEVEL_NODE) = 0 := by
  rw [List.countP_eq_zero]
  intro m hm
  rw [(mem_wipsFrom hm).2.2.2]
  simp [BOTTOM_LEVEL_NODE, hl]

theorem countLod_wipsFrom_zero (e : ExtQ) (cf : List ℕ) (b : BoundingSphere) (i : ℕ)
    (L : List (List ℕ)) :
    (wipsFrom 0 e cf b i L).countP (fun m => m.lodLevel == BOTTOM_LEVEL_NODE) = L.length := by
  rw [← wipsFrom_length 0 e cf b i L, List.countP_eq_length]
  intro m hm
  rw [(mem_wipsFrom hm).2.2.2]
  simp [BOTTOM_LEVEL_NODE]

theorem processGroup_countLod0 (env : Env) (lodLevel : ℕ) (hl : lodLevel ≠ 0)
    (singleGroup : Bool) (s : BuildState) (g : List ℕ) :
    (processGroup env lodLevel singleGroup s g).1.allMeshlets.countP
        (fun m => m.lodLevel == BOTTOM_LEVEL_NODE) =
      s.allMeshlets.countP (fun m => m.lodLevel == BOTTOM_LEVEL_NODE) := by
  by_cases h : groupStalls env s g
  · rw [processGroup_stall lodLevel singleGroup h]
  · rw [processGroup_survive lodLevel singleGroup h]
    obtain ⟨L, hL⟩ := groupCreated_char env lodLevel singleGroup s g
    unfold groupSurviveState
    rw [hL]
    dsimp only
    rw [setParentOfGroup_countLod, List.countP_append,
      countLod_wipsFrom_pos lodLevel hl, Nat.add_zero]

theorem runLevels_pres1 {useMap : Bool} {env : Env} (P : BuildState → Prop)
    (h : ∀ lodLevel singleGroup s g, lodLevel ≠ 0 → P s →
      P (processGroup env lodLevel singleGroup s g).1) :
    ∀ fuel lodLevel current s, lodLevel ≠ 0 → P s →
      ∀ st, (runLevels useMap env fuel lodLevel current s).2 = Except.ok st → P st := by
  intro fuel
  induction fuel with
  | zero =>
    intro lodLevel current s _ hs st hst
    rw [runLevels_zero] at hst
    cases hst
    exact hs
  | succ n ih =>
    intro lodLevel current s hl hs st hst
    rw [runLevels_succ] at hst
    by_cases hlen : current.length < 2
    · rw [if_pos hlen] at hst
      cases hst
      exact hs
    · rw [if_neg hlen] at hst
      dsimp only at hst
      have hfin := (processGroups_pres P
        (fun s' g' hp => h lodLevel ((levelPartitioned useMap env s current).length == 1)
          s' g' hl hp)
        (levelPartitioned useMap env s current) s hs).1
      split at hst
      · cases hst
      · exact ih (lodLevel + 1) _ _ (Nat.succ_ne_zero _) hfin st hst

theorem bottom_countLod0 (env : Env) :
    (splitIntoMeshlets env 0 env.meshIndices (ExtQ.fin 0) []
        (env.calcBounds env.meshIndices)
        { allMeshlets := [], nextMeshletId := 0, warnings := [] }).1.allMeshlets.countP
      (fun m => m.lodLevel == BOTTOM_LEVEL_NODE) = (env.split env.meshIndices).length := by
  unfold splitIntoMeshlets
  rw [splitIntoMeshletsAux_eq]
  dsimp only
  rw [List.nil_append]
  exact countLod_wipsFrom_zero _ _ _ _ _

theorem runNanite_countLod0 (useMap : Bool) (env : Env) (initId : ℕ) (st : BuildState)
    (hok : (runNanite useMap env initId).result = Except.ok st) :
    st.allMeshlets.countP (fun m => m.lodLevel == BOTTOM_LEVEL_NODE) =
      (env.split env.meshIndices).length := by
  exact runLevels_pres1
    (fun s => s.allMeshlets.countP (fun m => m.lodLevel == BOTTOM_LEVEL_NODE) =
      (env.split env.meshIndices).length)
    (fun lodLevel singleGroup s g hl hp => by
      dsimp only
      rw [processGroup_countLod0 env lodLevel hl singleGroup s g]
      exact hp)
    MAX_LODS 1 (runNanite useMap env initId).bottomIds
    (runNanite useMap env initId).bottomState Nat.one_ne_zero
    (bottom_countLod0 env) st hok

/-- **C8**: `createDrawnMeshletsBuffer` sizes the drawn-meshlets buffer at
exactly the hardware indirect-draw header plus the software indirect-dispatch
header plus `leafMeshletCount × instanceCount` entry slots of 8 bytes each,
where `leafMeshletCount` counts the `MeshletWIP`s at the bottom LOD level
(`lodLevel = 0`); and on every successful build that leaf count is fixed at
preprocessing time as the number of clusters the bottom-level split produced
(levels ≥ 1 never add a `lodLevel = 0` meshlet). -/
theorem c8_buffer_size :
    (∀ (wmbs : ℕ) (ms : List MeshletWIP) (ic : ℕ),
      createDrawnMeshletsBufferSize wmbs ms ic =
        BYTES_DRAWN_MESHLETS_PARAMS wmbs + BYTES_DRAWN_MESHLETS_SW_PARAMS wmbs +
          (ms.filter (fun m => m.lodLevel == BOTTOM_LEVEL_NODE)).length * ic * 8) ∧
    (∀ (useMap : Bool) (env : Env) (initId : ℕ) (st : BuildState),
      (runNanite useMap env initId).result = Except.ok st →
        (st.allMeshlets.filter (fun m => m.lodLevel == BOTTOM_LEVEL_NODE)).length =
          (env.split env.meshIndices).length) := by
  constructor
  · intro wmbs ms ic
    rfl
  · intro useMap env initId st hok
    rw [← List.countP_eq_length_filter]
    exact runNanite_countLod0 useMap env initId st hok

/-- **C8 witness**: on the concrete fixture `envC2` the run succeeds and the
final state holds exactly as many bottom-level meshlets as the level-0 split
produced clusters. -/
theorem c8_buffer_size_witness :
    (runNanite true envC2 0).result = Except.ok (runNanite true envC2 0).finalState ∧
    ((runNanite true envC2 0).finalState.allMeshlets.filter
        (fun m => m.lodLevel == BOTTOM_LEVEL_NODE)).length =
      (envC2.split envC2.meshIndices).length :=
  ⟨envC2_eval_ok, c8_buffer_size.2 true envC2 0 _ envC2_eval_ok⟩


/-! ## Adjacency: the hashed strategy equals the pairwise strategy (claim C6) -/

theorem lookupOwners_nil (e : Edge) : lookupOwners [] e = [] := rfl

theorem lookupOwners_cons_pos {q : Edge × List ℕ} {rest : List (Edge × List ℕ)} {e' : Edge}
    (h : q.1 = e') : lookupOwners (q :: rest) e' = q.2 := by
  unfold lookupOwners
  rw [@List.find?_cons_of_pos _ (fun r => r.1 == e') q rest (by simp [h])]
  rfl

theorem lookupOwners_cons_neg {q : Edge × List ℕ} {rest : List (Edge × List ℕ)} {e' : Edge}
    (h : ¬ q.1 = e') : lookupOwners (q :: rest) e' = lookupOwners rest e' := by
  unfold lookupOwners
  rw [@List.find?_cons_of_neg _ (fun r => r.1 == e') q rest (by simp [h])]

theorem lookupOwners_insertOwner (e : Edge) (i : ℕ) :
    ∀ (m : List (Edge × List ℕ)) (e' : Edge),
      lookupOwners (insertOwner e i m) e' =
        if e' = e then lookupOwners m e' ++ [i] else lookupOwners m e'
  | [], e' => by
    show lookupOwners [(e, [i])] e' = _
    by_cases h : e' = e
    · subst h
      rw [lookupOwners_cons_pos rfl, if_pos rfl, lookupOwners_nil, List.nil_append]
    · rw [lookupOwners_cons_neg (fun hc => h hc.symm), if_neg h]
  | p :: rest, e' => by
    by_cases hpe : p.1 = e
    · have hrw : insertOwner e i (p :: rest) = (p.1, p.2 ++ [i]) :: rest := by
        simp [insertOwner, hpe]
      rw [hrw]
      by_cases h : e' = e
      · subst h
        rw [if_pos rfl, @lookupOwners_cons_pos (p.1, p.2 ++ [i]) rest e' hpe,
          lookupOwners_cons_pos hpe]
      · have hne : ¬ p.1 = e' := fun hc => h (hc.symm.trans hpe)
        rw [if_neg h, @lookupOwners_cons_neg (p.1, p.2 ++ [i]) rest e' hne,
          lookupOwners_cons_neg hne]
    · have hrw : insertOwner e i (p :: rest) = p :: insertOwner e i rest := by
        simp [insertOwner, hpe]
      rw [hrw]
      by_cases h : p.1 = e'
      · have hne : ¬ e' = e := fun hc => hpe (h.trans hc)
        rw [if_neg hne, lookupOwners_cons_pos h, lookupOwners_cons_pos h]
      · rw [lookupOwners_cons_neg h, lookupOwners_insertOwner e i rest e',
          lookupOwners_cons_neg h]

theorem keys_insertOwner (e : Edge) (i : ℕ) :
    ∀ m : List (Edge × List ℕ),
      (insertOwner e i m).map (fun p => p.1) =
        if e ∈ m.map (fun p => p.1) then m.map (fun p => p.1)
        else m.map (fun p => p.1) ++ [e]
  | [] => by simp [insertOwner]
  | p :: rest => by
    by_cases hpe : p.1 = e
    · have hb : (p.1 == e) = true := by simp [hpe]
      have hmem : e ∈ p.1 :: rest.map (fun p => p.1) := by
        rw [hpe]
        exact List.mem_cons_self _ _
      simp only [insertOwner, if_pos hb, List.map_cons, if_pos hmem]
    · have hb : ¬ (p.1 == e) = true := by simp [hpe]
      have hshift : e ∈ p.1 :: rest.map (fun p => p.1) ↔ e ∈ rest.map (fun p => p.1) := by
        simp [Ne.symm hpe]
      simp only [insertOwner, if_neg hb, List.map_cons, keys_insertOwner e i rest]
      by_cases hm : e ∈ rest.map (fun p => p.1)
      · rw [if_pos hm, if_pos (hshift.mpr hm)]
      · rw [if_neg hm, if_neg (fun hc => hm (hshift.mp hc)), List.cons_append]

theorem mem_keys_insertOwner (e : Edge) (i : ℕ) (m : List (Edge × List ℕ)) (x : Edge) :
    x ∈ (insertOwner e i m).map (fun p => p.1) ↔ x ∈ m.map (fun p => p.1) ∨ x = e := by
  rw [keys_insertOwner]
  by_cases hm : e ∈ m.map (fun p => p.1)
  · rw [if_pos hm]
    constructor
    · exact Or.inl
    · rintro (hx | rfl)
      · exact hx
      · exact hm
  · rw [if_neg hm]
    simp

theorem nodup_keys_insertOwner (e : Edge) (i : ℕ) (m : List (Edge × List ℕ))
    (h : (m.map (fun p => p.1)).Nodup) :
    ((insertOwner e i m).map (fun p => p.1)).Nodup := by
  rw [keys_insertOwner]
  by_cases hm : e ∈ m.map (fun p => p.1)
  · rwa [if_pos hm]
  · rw [if_neg hm]
    simp [List.nodup_append, h, hm]

theorem lookupOwners_foldInsert (i : ℕ) :
    ∀ (es : List Edge) (m : List (Edge × List ℕ)) (e' : Edge),
      lookupOwners (es.foldl (fun acc e => insertOwner e i acc) m) e' =
        lookupOwners m e' ++ List.replicate (es.count e') i
  | [], m, e' => by simp
  | x :: xs, m, e' => by
    rw [List.foldl_cons, lookupOwners_foldInsert i xs (insertOwner x i m) e',
      lookupOwners_insertOwner, List.count_cons]
    by_cases h : e' = x
    · subst h
      simp [List.replicate_succ, List.append_assoc]
    · simp [h, Ne.symm h]

theorem mem_keys_foldInsert (i : ℕ) :
    ∀ (es : List Edge) (m : List (Edge × List ℕ)) (x : Edge),
      x ∈ (es.foldl (fun acc e => insertOwner e i acc) m).map (fun p => p.1) ↔
        x ∈ m.map (fun p => p.1) ∨ x ∈ es
  | [], m, x => by simp
  | y :: ys, m, x => by
    rw [List.foldl_cons, mem_keys_foldInsert i ys (insertOwner y i m) x,
      mem_keys_insertOwner]
    simp only [List.mem_cons]
    tauto

theorem nodup_keys_foldInsert (i : ℕ) :
    ∀ (es : List Edge) (m : List (Edge × List ℕ)),
      (m.map (fun p => p.1)).Nodup →
      ((es.foldl (fun acc e => insertOwner e i acc) m).map (fun p => p.1)).Nodup
  | [], _, h => h
  | y :: ys, m, h => by
    rw [List.foldl_cons]
    exact nodup_keys_foldInsert i ys (insertOwner y i m) (nodup_keys_insertOwner y i m h)

theorem lookupOwners_buildEdgeMapAux :
    ∀ (bs : List (List Edge)) (k : ℕ) (acc : List (Edge × List ℕ)) (x : ℕ) (e' : Edge),
      x ∈ lookupOwners (buildEdgeMapAux k acc bs) e' ↔
        x ∈ lookupOwners acc e' ∨ ∃ t, t < bs.length ∧ x = k + t ∧ e' ∈ bs.getD t []
  | [], k, acc, x, e' => by simp [buildEdgeMapAux]
  | es :: rest, k, acc, x, e' => by
    show x ∈ lookupOwners (buildEdgeMapAux (k + 1)
      (es.foldl (fun acc e => insertOwner e k acc) acc) rest) e' ↔ _
    rw [lookupOwners_buildEdgeMapAux rest (k + 1) _ x e', lookupOwners_foldInsert,
      List.mem_append, List.mem_replicate]
    constructor
    · rintro ((hacc | ⟨hcnt, rfl⟩) | ⟨t, ht, rfl, hmem⟩)
      · exact Or.inl hacc
      · refine Or.inr ⟨0, by simp, by omega, ?_⟩
        rw [List.getD_cons_zero]
        have := List.count_pos_iff.mp (Nat.pos_of_ne_zero hcnt)
        exact this
      · exact Or.inr ⟨t + 1, by simpa using ht, by omega, by rwa [List.getD_cons_succ]⟩
    · rintro (hacc | ⟨t, ht, rfl, hmem⟩)
      · exact Or.inl (Or.inl hacc)
      · cases t with
        | zero =>
          rw [List.getD_cons_zero] at hmem
          refine Or.inl (Or.inr ⟨?_, by omega⟩)
          exact Nat.pos_iff_ne_zero.mp (List.count_pos_iff.mpr hmem)
        | succ t' =>
          rw [List.getD_cons_succ] at hmem
          exact Or.inr ⟨t', by simp at ht; omega, by omega, hmem⟩

theorem mem_keys_buildEdgeMapAux :
    ∀ (bs : List (List Edge)) (k : ℕ) (acc : List (Edge × List ℕ)) (e' : Edge),
      e' ∈ (buildEdgeMapAux k acc bs).map (fun p => p.1) ↔
        e' ∈ acc.map (fun p => p.1) ∨ ∃ t, t < bs.length ∧ e' ∈ bs.getD t []
  | [], k, acc, e' => by simp [buildEdgeMapAux]
  | es :: rest, k, acc, e' => by
    show e' ∈ ((buildEdgeMapAux (k + 1)
      (es.foldl (fun acc e => insertOwner e k acc) acc) rest).map (fun p => p.1)) ↔ _
    rw [mem_keys_buildEdgeMapAux rest (k + 1) _ e', mem_keys_foldInsert]
    constructor
    · rintro ((hacc | hes) | ⟨t, ht, hmem⟩)
      · exact Or.inl hacc
      · exact Or.inr ⟨0, by simp, by rwa [List.getD_cons_zero]⟩
      · exact Or.inr ⟨t + 1, by simpa using ht, by rwa [List.getD_cons_succ]⟩
    · rintro (hacc | ⟨t, ht, hmem⟩)
      · exact Or.inl (Or.inl hacc)
      · cases t with
        | zero =>
          rw [List.getD_cons_zero] at hmem
          exact Or.inl (Or.inr hmem)
        | succ t' =>
          rw [List.getD_cons_succ] at hmem
          exact Or.inr ⟨t', by simp at ht; omega, hmem⟩

theorem nodup_keys_buildEdgeMapAux :
    ∀ (bs : List (List Edge)) (k : ℕ) (acc : List (Edge × List ℕ)),
      (acc.map (fun p => p.1)).Nodup →
      ((buildEdgeMapAux k acc bs).map (fun p => p.1)).Nodup
  | [], _, _, h => h
  | es :: rest, k, acc, h =>
    nodup_keys_buildEdgeMapAux rest (k + 1) _ (nodup_keys_foldInsert k es acc h)

theorem snd_eq_lookupOwners :
    ∀ (m : List (Edge × List ℕ)), (m.map (fun p => p.1)).Nodup →
      ∀ p ∈ m, p.2 = lookupOwners m p.1
  | [], _, p, hp => absurd hp (List.not_mem_nil p)
  | q :: rest, h, p, hp => by
    rw [List.map_cons, List.nodup_cons] at h
    rcases List.mem_cons.mp hp with rfl | hmem
    · rw [lookupOwners_cons_pos rfl]
    · have hne : ¬ q.1 = p.1 := by
        intro hc
        exact h.1 (hc ▸ List.mem_map.mpr ⟨p, hmem, rfl⟩)
      rw [lookupOwners_cons_neg hne]
      exact snd_eq_lookupOwners rest h.2 p hmem

theorem mapWeight_eq_iterWeight (bs : List (List Edge)) (hn : ∀ l ∈ bs, l.Nodup)
    (i j : ℕ) (hi : i < bs.length) (hj : j < bs.length) :
    ((buildEdgeMapAux 0 [] bs).filter (fun p => p.2.contains i && p.2.contains j)).length =
      ((bs.getD i []).filter (fun e => (bs.getD j []).contains e)).length := by
  have hknd : ((buildEdgeMapAux 0 [] bs).map (fun p => p.1)).Nodup :=
    nodup_keys_buildEdgeMapAux bs 0 [] (by simp)
  have hlook : ∀ (x : ℕ) (e' : Edge), x ∈ lookupOwners (buildEdgeMapAux 0 [] bs) e' ↔
      x < bs.length ∧ e' ∈ bs.getD x [] := by
    intro x e'
    rw [lookupOwners_buildEdgeMapAux bs 0 [] x e', lookupOwners_nil]
    constructor
    · rintro (hc | ⟨t, ht, rfl, hmem⟩)
      · cases hc
      · exact ⟨by omega, by simpa using hmem⟩
    · rintro ⟨h1, h2⟩
      exact Or.inr ⟨x, h1, by omega, h2⟩
  have hfc : (buildEdgeMapAux 0 [] bs).filter (fun p => p.2.contains i && p.2.contains j) =
      (buildEdgeMapAux 0 [] bs).filter
        ((fun e => (lookupOwners (buildEdgeMapAux 0 [] bs) e).contains i &&
          (lookupOwners (buildEdgeMapAux 0 [] bs) e).contains j) ∘ (fun p => p.1)) := by
    apply List.filter_congr
    intro p hp
    have h := snd_eq_lookupOwners _ hknd p hp
    simp only [Function.comp]
    rw [← h]
  rw [hfc, ← List.length_map _ (fun p => p.1), ← List.filter_map]
  have h1 : ((List.filter (fun e => (lookupOwners (buildEdgeMapAux 0 [] bs) e).contains i &&
      (lookupOwners (buildEdgeMapAux 0 [] bs) e).contains j)
      ((buildEdgeMapAux 0 [] bs).map (fun p => p.1)))).Nodup :=
    hknd.filter _
  have hbsi : bs.getD i [] ∈ bs := by
    rw [List.getD_eq_getElem _ _ hi]
    exact List.getElem_mem hi
  have h2 : ((bs.getD i []).filter (fun e => (bs.getD j []).contains e)).Nodup :=
    (hn _ hbsi).filter _
  apply List.Perm.length_eq
  rw [List.perm_ext_iff_of_nodup h1 h2]
  intro e
  have hcontN : ∀ (l : List ℕ) (a : ℕ), l.contains a = true ↔ a ∈ l := fun l a => by simp
  have hcontE : ∀ (l : List Edge) (a : Edge), l.contains a = true ↔ a ∈ l := fun l a => by simp
  simp only [List.mem_filter, Bool.and_eq_true, mem_keys_buildEdgeMapAux bs 0 [],
    List.map_nil, List.not_mem_nil, false_or, hcontN, hcontE, hlook]
  constructor
  · rintro ⟨-, ⟨-, hie⟩, ⟨-, hje⟩⟩
    exact ⟨hie, hje⟩
  · rintro ⟨hmi, hmj⟩
    exact ⟨⟨i, hi, hmi⟩, ⟨hi, hmi⟩, ⟨hj, hmj⟩⟩


theorem hashAdjacency_eq_iterAdjacency (bs : List (List Edge))
    (hn : ∀ l ∈ bs, l.Nodup) :
    findAdjacentMeshlets_Map bs = findAdjacentMeshlets_Iter bs := by
  unfold findAdjacentMeshlets_Map findAdjacentMeshlets_Iter
  dsimp only
  apply List.map_congr_left
  intro i hi
  apply List.map_congr_left
  intro j hj
  by_cases hij : i = j
  · rw [if_pos (by simp [hij]), if_pos (by simp [hij])]
  · rw [if_neg (by simp [hij]), if_neg (by simp [hij])]
    exact mapWeight_eq_iterWeight bs hn i j (List.mem_range.mp hi) (List.mem_range.mp hj)

/-! ## The strategy flag never changes the pipeline (claim C6, run level) -/

theorem nodup_filter_of_count_le_one :
    ∀ (l : List Edge) (p : Edge → Bool), (∀ e, p e = true → l.count e ≤ 1) →
      (l.filter p).Nodup
  | [], _, _ => List.nodup_nil
  | x :: xs, p, h => by
    have htail : ∀ e, p e = true → xs.count e ≤ 1 := by
      intro e hpe
      have hc := h e hpe
      rw [List.count_cons] at hc
      omega
    rw [List.filter_cons]
    by_cases hpx : p x = true
    · rw [if_pos hpx, List.nodup_cons]
      refine ⟨?_, nodup_filter_of_count_le_one xs p htail⟩
      intro hmem
      have hx : x ∈ xs := (List.mem_filter.mp hmem).1
      have h1 : 0 < xs.count x := List.count_pos_iff.mpr hx
      have h2 := h x hpx
      rw [List.count_cons] at h2
      simp only [beq_self_eq_true, if_true] at h2
      omega
    · rw [if_neg hpx]
      exact nodup_filter_of_count_le_one xs p htail

theorem findBoundaryEdges_nodup (edges : List Edge) : (findBoundaryEdges edges).Nodup := by
  unfold findBoundaryEdges
  apply nodup_filter_of_count_le_one
  intro e hpe
  simp only [beq_iff_eq] at hpe
  omega

theorem wipsFrom_be_nodup {lodLevel : ℕ} {e : ExtQ} {cf : List ℕ} {b : BoundingSphere} :
    ∀ {i : ℕ} {L : List (List ℕ)} {m : MeshletWIP}, m ∈ wipsFrom lodLevel e cf b i L →
      m.boundaryEdges.Nodup := by
  intro i L
  induction L generalizing i with
  | nil => intro m hm; cases hm
  | cons idxs rest ih =>
    intro m hm
    rcases List.mem_cons.mp hm with rfl | hmem
    · exact findBoundaryEdges_nodup _
    · exact ih hmem

theorem processGroup_pres_be (env : Env) (lodLevel : ℕ) (singleGroup : Bool)
    (s : BuildState) (g : List ℕ)
    (h : ∀ m ∈ s.allMeshlets, m.boundaryEdges.Nodup) :
    ∀ m ∈ (processGroup env lodLevel singleGroup s g).1.allMeshlets,
      m.boundaryEdges.Nodup := by
  by_cases hc : groupStalls env s g
  · rw [processGroup_stall lodLevel singleGroup hc]
    exact h
  · rw [processGroup_survive lodLevel singleGroup hc]
    obtain ⟨L, hL⟩ := groupCreated_char env lodLevel singleGroup s g
    unfold groupSurviveState
    rw [hL]
    dsimp only
    intro m' hm'
    unfold setParentOfGroup at hm'
    obtain ⟨m, hm, rfl⟩ := List.mem_map.mp hm'
    have hbe : m.boundaryEdges.Nodup := by
      rcases List.mem_append.mp hm with hold | hnew
      · exact h m hold
      · exact wipsFrom_be_nodup hnew
    by_cases hg : g.contains m.id
    · rw [if_pos hg]
      exact hbe
    · rw [if_neg hg]
      exact hbe

theorem levelPartitioned_flag (env : Env) (s : BuildState) (current : List ℕ)
    (hinv : ∀ m ∈ s.allMeshlets, m.boundaryEdges.Nodup) :
    levelPartitioned true env s current = levelPartitioned false env s current := by
  unfold levelPartitioned
  by_cases hlen : GROUP_SIZE < current.length
  · rw [if_pos hlen, if_pos hlen]
    have hadj : findAdjacentMeshlets true (current.map (fun i =>
        ((findMeshlet s.allMeshlets i).map (fun m => m.boundaryEdges)).getD [])) =
      findAdjacentMeshlets false (current.map (fun i =>
        ((findMeshlet s.allMeshlets i).map (fun m => m.boundaryEdges)).getD [])) := by
      show findAdjacentMeshlets_Map _ = findAdjacentMeshlets_Iter _
      apply hashAdjacency_eq_iterAdjacency
      intro l hl
      obtain ⟨idx, hidx, rfl⟩ := List.mem_map.mp hl
      cases hfm : findMeshlet s.allMeshlets idx with
      | none => simp
      | some m =>
        simp only [Option.map_some', Option.getD_some]
        exact hinv m (findMeshlet_mem hfm).1
    rw [hadj]
  · rw [if_neg hlen, if_neg hlen]

theorem runLevels_flag (env : Env) :
    ∀ (fuel lodLevel : ℕ) (current : List ℕ) (s : BuildState),
      (∀ m ∈ s.allMeshlets, m.boundaryEdges.Nodup) →
      runLevels true env fuel lodLevel current s =
        runLevels false env fuel lodLevel current s := by
  intro fuel
  induction fuel with
  | zero =>
    intro lodLevel current s _
    rw [runLevels_zero, runLevels_zero]
  | succ n ih =>
    intro lodLevel current s hinv
    rw [runLevels_succ, runLevels_succ]
    by_cases hlen : current.length < 2
    · rw [if_pos hlen, if_pos hlen]
    · rw [if_neg hlen, if_neg hlen]
      dsimp only
      rw [levelPartitioned_flag env s current hinv]
      have hinv' : ∀ m ∈ (processGroups env lodLevel
          ((levelPartitioned false env s current).length == 1)
          (levelPartitioned false env s current) s).1.allMeshlets,
          m.boundaryEdges.Nodup :=
        (processGroups_pres (fun st => ∀ m ∈ st.allMeshlets, m.boundaryEdges.Nodup)
          (fun s' g' hp => processGroup_pres_be env lodLevel
            ((levelPartitioned false env s current).length == 1) s' g' hp)
          (levelPartitioned false env s current) s hinv).1
      rw [ih (lodLevel + 1)
        ((processGroups env lodLevel ((levelPartitioned false env s current).length == 1)
          (levelPartitioned false env s current) s).2.flatMap (fun g => g.newIds))
        ((processGroups env lodLevel ((levelPartitioned false env s current).length == 1)
          (levelPartitioned false env s current) s).1) hinv']

theorem bottom_be (env : Env) :
    ∀ m ∈ (splitIntoMeshlets env 0 env.meshIndices (ExtQ.fin 0) []
        (env.calcBounds env.meshIndices)
        { allMeshlets := [], nextMeshletId := 0, warnings := [] }).1.allMeshlets,
      m.boundaryEdges.Nodup := by
  unfold splitIntoMeshlets
  rw [splitIntoMeshletsAux_eq]
  dsimp only
  rw [List.nil_append]
  intro m hm
  exact wipsFrom_be_nodup hm

theorem runNanite_flag (env : Env) (initId : ℕ) :
    runNanite true env initId = runNanite false env initId := by
  unfold runNanite
  dsimp only
  rw [runLevels_flag env MAX_LODS 1
    (splitIntoMeshlets env 0 env.meshIndices (ExtQ.fin 0) []
      (env.calcBounds env.meshIndices)
      { allMeshlets := [], nextMeshletId := 0, warnings := [] }).2
    (splitIntoMeshlets env 0 env.meshIndices (ExtQ.fin 0) []
      (env.calcBounds env.meshIndices)
      { allMeshlets := [], nextMeshletId := 0, warnings := [] }).1
    (bottom_be env)]

/-- **C6**: the two adjacency strategies agree: on every list of per-meshlet
boundary-edge sets (no edge repeated within a cluster, exactly what
`findBoundaryEdges` produces) the hashed edge-map strategy returns the
pairwise comparison strategy's weight matrix verbatim, and consequently the
`useMapToFindAdjacentEdges` configuration flag never changes anything about
the constructed DAG: the whole build run is identical under both settings. -/
theorem c6_adjacency_strategies_agree :
    (∀ boundaryEdges : List (List Edge), (∀ l ∈ boundaryEdges, l.Nodup) →
      findAdjacentMeshlets_Map boundaryEdges = findAdjacentMeshlets_Iter boundaryEdges) ∧
    (∀ (env : Env) (initialNextMeshletId : ℕ),
      runNanite true env initialNextMeshletId = runNanite false env initialNextMeshletId) :=
  ⟨hashAdjacency_eq_iterAdjacency, runNanite_flag⟩

/-- **C6 witness**: the strategies agree on a concrete three-cluster instance
with a shared edge. -/
theorem c6_adjacency_strategies_agree_witness :
    (∀ l ∈ ([[(0, 1), (1, 2)], [(1, 2), (2, 3)], [(5, 6)]] : List (List Edge)), l.Nodup) ∧
    findAdjacentMeshlets_Map ([[(0, 1), (1, 2)], [(1, 2), (2, 3)], [(5, 6)]] : List (List Edge)) =
      findAdjacentMeshlets_Iter
        ([[(0, 1), (1, 2)], [(1, 2), (2, 3)], [(5, 6)]] : List (List Edge)) :=
  ⟨by decide, c6_adjacency_strategies_agree.1 _ (by decide)⟩

end NaniteWebgpu
